import Mathlib

/-!
Verification development for the blinko-to-obsidian plugin core
(sync engine, deletion/reconciliation engine, remote client, vault adapter).

The definitions below are shallow embeddings of the TypeScript sources:
* `src/syncManager.ts` (SyncManager.startSync / handleNote),
* the DeletionManager (reconcileDeletedNotes / findMissingAndRecycledNoteIds),
* `src/client.ts` (BlinkoClient.getNotesByIds / buildUrl / extractNotes),
* the VaultAdapter (saveNote / processAttachments / generateMarkdown /
  ensureTrailingNewline / buildNotePath and helpers).

External collaborators (the Obsidian vault, the HTTP layer, moment.js, the AI
title service) are modelled as explicit function parameters and explicit
state threading; fallible operations return `Except`/`Option` values.
JavaScript `Date.parse note.updatedAt` is modelled by a field
`updatedMs : Option Int` (`none` encodes a non-finite parse result).
-/

namespace B2O

/-- Prefix relation on lists, used to state early-stop properties. -/
def ListPref {α : Type} (l₁ l₂ : List α) : Prop := ∃ t, l₁ ++ t = l₂

/-! ## Sync engine (src/syncManager.ts) -/

/-- The fields of a remote note that `SyncManager` inspects.  `updatedMs` is
the result of `Date.parse note.updatedAt` (`none` when not finite). -/
structure SyncNote where
  id : Nat
  createdAt : String
  updatedMs : Option Int
  type : Option Int
deriving DecidableEq

/-- SavedNoteResult as returned by `VaultAdapter.saveNote` and consumed by the
sync manager. -/
structure SavedSync where
  attachments : List String
  filePath : String
  blockId : String
deriving DecidableEq

/-- FlashNoteJournalEntry built by `SyncManager.buildFlashSnapshot`. -/
structure FlashEntry where
  id : Nat
  createdAt : String
  filePath : String
  blockId : String
  type : Option Int
deriving DecidableEq

/-- From noteUtils: `value !== 1 && value !== 2` (null/undefined count as flash). -/
def isFlashType : Option Int → Bool
  | some t => decide (t ≠ 1) && decide (t ≠ 2)
  | none => true

/-- From `SyncManager.buildFlashSnapshot`. -/
def buildFlashSnapshot (n : SyncNote) (r : SavedSync) : FlashEntry :=
  ⟨n.id, n.createdAt, r.filePath, r.blockId, n.type⟩

/-- The early-stop test of `SyncManager.handleNote`:
`Number.isFinite(updatedTime) && lastSyncTime && updatedTime <= lastSyncTime`.
JavaScript truthiness makes `lastSyncTime = 0` disable the test. -/
def shouldStopNote (lastSyncTime : Int) (n : SyncNote) : Bool :=
  match n.updatedMs with
  | some t => decide (lastSyncTime ≠ 0) && decide (t ≤ lastSyncTime)
  | none => false

/-- Specification-side predicate: the note's parsed `updatedAt` is at most the
cursor (the wording of the early-stop rule in the spec). -/
def staleNote (cursor : Int) (n : SyncNote) : Prop :=
  ∃ t, n.updatedMs = some t ∧ t ≤ cursor

instance (cursor : Int) (n : SyncNote) : Decidable (staleNote cursor n) := by
  unfold staleNote
  cases h : n.updatedMs with
  | none => exact .isFalse (by simp [h])
  | some t => exact decidable_of_iff (t ≤ cursor) (by simp [h])

/-- Accumulated effect of the inner `for (const note of notes)` loop of
`SyncManager.startSync`: counters, journal entries, the notes passed to
`saveNote` (in order), the notes handed to `handleNote`, a propagated
materialization error, and whether the early-stop fired (`hasMore = false`). -/
structure NotesStep (ε : Type) where
  newNotes : Nat
  flash : List FlashEntry
  saved : List SyncNote
  examined : List SyncNote
  err : Option ε
  stopped : Bool
deriving DecidableEq

/-- The inner note loop of `SyncManager.startSync` together with
`SyncManager.handleNote`; `save` models `vaultAdapter.saveNote` (an
`Except.error` models a thrown materialization error). -/
def processNotes {ε : Type} (save : SyncNote → Except ε SavedSync) (cursor : Int) :
    List SyncNote → NotesStep ε
  | [] => ⟨0, [], [], [], none, false⟩
  | n :: rest =>
    if shouldStopNote cursor n then ⟨0, [], [], [n], none, true⟩
    else
      match save n with
      | .error e => ⟨0, [], [], [n], some e, false⟩
      | .ok r =>
        let s := processNotes save cursor rest
        ⟨s.newNotes + 1,
         (if isFlashType n.type then [buildFlashSnapshot n r] else []) ++ s.flash,
         n :: s.saved, n :: s.examined, s.err, s.stopped⟩

/-- Accumulated effect of the outer `while (hasMore)` pagination loop:
the data of `NotesStep` plus the number of `client.getNotes` calls made. -/
structure PagesOut (ε : Type) where
  newNotes : Nat
  flash : List FlashEntry
  saved : List SyncNote
  examined : List SyncNote
  err : Option ε
  fetches : Nat
deriving DecidableEq

/-- The pagination loop of `SyncManager.startSync`.  The remote is modelled as
the list of successive page-fetch outcomes; fetching past the end of the list
yields an empty page (which stops the loop, as in the source).  An
`Except.error` page models a thrown fetch error. -/
def processPages {ε : Type} (save : SyncNote → Except ε SavedSync) (cursor : Int)
    (pageSize : Nat) : List (Except ε (List SyncNote)) → PagesOut ε
  | [] => ⟨0, [], [], [], none, 1⟩
  | .error e :: _ => ⟨0, [], [], [], some e, 1⟩
  | .ok notes :: rest =>
    if notes.isEmpty then ⟨0, [], [], [], none, 1⟩
    else
      let s := processNotes save cursor notes
      match s.err with
      | some e => ⟨s.newNotes, s.flash, s.saved, s.examined, some e, 1⟩
      | none =>
        if s.stopped || decide (notes.length < pageSize) then
          ⟨s.newNotes, s.flash, s.saved, s.examined, none, 1⟩
        else
          let r := processPages save cursor pageSize rest
          ⟨s.newNotes + r.newNotes, s.flash ++ r.flash, s.saved ++ r.saved,
           s.examined ++ r.examined, r.err, 1 + r.fetches⟩

/-- SyncResult returned by `SyncManager.startSync`. -/
structure SyncResult where
  newNotes : Nat
  flashNotes : List FlashEntry
deriving DecidableEq

/-- Errors escaping `startSync`: the configuration error thrown before any
network call, or a propagated fetch/materialization error. -/
inductive SyncError (ε : Type) where
  | config : SyncError ε
  | run : ε → SyncError ε
deriving DecidableEq

instance {ε α : Type} [DecidableEq ε] [DecidableEq α] : DecidableEq (Except ε α) :=
  fun a b =>
    match a, b with
    | .error e, .error f => decidable_of_iff (e = f) (by simp)
    | .ok x, .ok y => decidable_of_iff (x = y) (by simp)
    | .error _, .ok _ => .isFalse (by simp)
    | .ok _, .error _ => .isFalse (by simp)

/-- Observable outcome of one `startSync` call: the returned/thrown value, the
cursor (`settings.lastSyncTime`) after the call, the notes materialized, the
notes examined by `handleNote`, and the number of page fetches performed. -/
structure StartOut (ε : Type) where
  returned : Except (SyncError ε) SyncResult
  cursor : Int
  saved : List SyncNote
  examined : List SyncNote
  fetches : Nat
deriving DecidableEq

/-- `SyncManager.startSync`.  `isSyncing` is the single-flight guard,
`lastSyncTime` the stored cursor, `syncStartTime` the captured `Date.now()`.
On success the cursor is set to `syncStartTime` and the settings persisted; on
a propagated error the cursor keeps its previous value. -/
def startSync {ε : Type} (isSyncing : Bool) (serverUrl accessToken : String)
    (lastSyncTime : Int) (syncStartTime : Int)
    (save : SyncNote → Except ε SavedSync)
    (pages : List (Except ε (List SyncNote))) : StartOut ε :=
  if isSyncing then ⟨.ok ⟨0, []⟩, lastSyncTime, [], [], 0⟩
  else if serverUrl = "" ∨ accessToken = "" then ⟨.error .config, lastSyncTime, [], [], 0⟩
  else
    let r := processPages save lastSyncTime 50 pages
    match r.err with
    | some e => ⟨.error (.run e), lastSyncTime, r.saved, r.examined, r.fetches⟩
    | none => ⟨.ok ⟨r.newNotes, r.flash⟩, syncStartTime, r.saved, r.examined, r.fetches⟩

/-! ## Deletion / reconciliation engine (DeletionManager) -/

/-- The fields of a remote note that reconciliation inspects. -/
structure RemoteNote where
  id : Nat
  isRecycle : Bool
deriving DecidableEq

/-- Structural worker for `chunksOf`; the fuel only serves termination and is
irrelevant as soon as it is at least the list length (each step consumes at
least one element). -/
def chunksOfGo {α : Type} (n : Nat) : Nat → List α → List (List α)
  | 0, _ => []
  | _, [] => []
  | fuel + 1, x :: xs => (x :: xs.take (n - 1)) :: chunksOfGo n fuel (xs.drop (n - 1))

/-- Chunking of the id list into batches of `n` (the `for` loop with
`ids.slice(i, i + chunkSize)` in `findMissingAndRecycledNoteIds`). -/
def chunksOf {α : Type} (n : Nat) (l : List α) : List (List α) :=
  chunksOfGo n l.length l

/-- JavaScript `Set.add`: insertion-ordered, duplicate-free accumulation. -/
def insertUniq (l : List Nat) (x : Nat) : List Nat :=
  if x ∈ l then l else l ++ [x]

/-- The accumulation loop over chunk responses in
`findMissingAndRecycledNoteIds`: first component gathers `existingIds`,
second gathers `recycledIds`, both as JavaScript `Set`s. -/
def collectReported (byIds : List Nat → List RemoteNote)
    (chunks : List (List Nat)) : List Nat × List Nat :=
  chunks.foldl
    (fun acc chunk =>
      (byIds chunk).foldl
        (fun acc2 note =>
          (insertUniq acc2.1 note.id,
           if note.isRecycle then insertUniq acc2.2 note.id else acc2.2))
        acc)
    ([], [])

/-- `DeletionManager.findMissingAndRecycledNoteIds`: chunk the requested ids
into batches of 50, query the remote per chunk (`byIds` models a successful
`client.getNotesByIds`), and return the requested ids not reported present
together with the reported recycled ids. -/
def findMissingAndRecycledNoteIds (byIds : List Nat → List RemoteNote)
    (ids : List Nat) : List Nat × List Nat :=
  let er := collectReported byIds (chunksOf 50 ids)
  (ids.filter (fun id => decide (id ∉ er.1)), er.2)

/-- Observable outcome of one `reconcileDeletedNotes` call: the returned
removal count, the ids whose note files were removed (in removal order), and
the number of `getNotesByIds` calls issued. -/
structure ReconcileOut where
  removedCount : Nat
  removedIds : List Nat
  lookups : Nat
deriving DecidableEq

/-- `DeletionManager.reconcileDeletedNotes`.  `isRunning` is the single-flight
guard, `deleteRecycled` is `shouldDeleteRecycledNotes()`, `localIds` the ids
extracted from the local `blinko-<id>.md` files. -/
def reconcileDeletedNotes (isRunning deleteRecycled : Bool) (localIds : List Nat)
    (byIds : List Nat → List RemoteNote) : ReconcileOut :=
  if isRunning then ⟨0, [], 0⟩
  else if localIds.isEmpty then ⟨0, [], 0⟩
  else
    let lookups := (chunksOf 50 localIds).length
    let mr := findMissingAndRecycledNoteIds byIds localIds
    let base := mr.1.foldl insertUniq []
    let toRemove := if deleteRecycled then mr.2.foldl insertUniq base else base
    if toRemove.isEmpty then ⟨0, [], lookups⟩
    else
      let removed := toRemove.filter (fun id => decide (id ∈ localIds))
      ⟨removed.length, removed, lookups⟩

/-! ## Remote client (src/client.ts) -/

/-- Character-list helpers mirroring the JavaScript string operations used by
the client and the vault adapter. -/
def myTrim (s : String) : String :=
  String.mk (((s.data.dropWhile Char.isWhitespace).reverse.dropWhile
    Char.isWhitespace).reverse)

/-- JavaScript `replace(/\/+$/, '')`. -/
def dropTrailingSlashes (s : String) : String :=
  String.mk ((s.data.reverse.dropWhile (fun c => c = '/')).reverse)

/-- JavaScript `replace(/^\/+/, '')`. -/
def dropLeadingSlashes (s : String) : String :=
  String.mk (s.data.dropWhile (fun c => c = '/'))

/-- JavaScript `String.startsWith`. -/
def strStartsWith (s p : String) : Bool := p.data.isPrefixOf s.data

/-- JavaScript substring containment (`String.includes`). -/
def listIncludes (h n : List Char) : Bool :=
  if n.isPrefixOf h then true
  else
    match h with
    | [] => false
    | _ :: t => listIncludes t n

/-- JavaScript `String.includes`. -/
def strIncludes (s sub : String) : Bool := listIncludes s.data sub.data

/-- Model of `BlinkoClient.getOrigin`: the scheme and host of the base URL
(`new URL(base).origin`), falling back to the base with trailing slashes
stripped when the URL does not parse. -/
def getOrigin (base : String) : String :=
  if strStartsWith base ("http://") then
    String.mk (base.data.take 7 ++ (base.data.drop 7).takeWhile (fun c => c ≠ '/'))
  else if strStartsWith base ("https://") then
    String.mk (base.data.take 8 ++ (base.data.drop 8).takeWhile (fun c => c ≠ '/'))
  else dropTrailingSlashes base

/-- `BlinkoClient.buildUrl`; the `Except.error` is the configuration error
thrown when the trimmed server URL is empty. -/
def buildUrl (serverUrl : String) (path : String) (absoluteFromOrigin : Bool) :
    Except String String :=
  let trimmed := dropTrailingSlashes (myTrim serverUrl)
  if trimmed = "" then .error ("Blinko server URL is not configured.")
  else
    let cleanPath := myTrim path
    if cleanPath = "" then .ok trimmed
    else if strStartsWith cleanPath ("http://") || strStartsWith cleanPath ("https://") then
      .ok cleanPath
    else if absoluteFromOrigin && strStartsWith cleanPath ("/") then
      .ok (getOrigin trimmed ++ cleanPath)
    else .ok (trimmed ++ ("/") ++ dropLeadingSlashes cleanPath)

/-- JSON payloads as far as `BlinkoClient.extractNotes` inspects them: null or
another non-container value, an array of notes, or an object with fields. -/
inductive JVal where
  | nullv : JVal
  | arr : List RemoteNote → JVal
  | obj : List (String × JVal) → JVal

/-- Field lookup on a JSON object. -/
def lookupField : List (String × JVal) → String → Option JVal
  | [], _ => none
  | (k, v) :: rest, key => if k = key then some v else lookupField rest key

/-- JavaScript optional-chaining field access `payload?.field`. -/
def jGet : JVal → String → Option JVal
  | .obj fields, key => lookupField fields key
  | _, _ => none

/-- `Array.isArray` refinement used by `extractNotes`. -/
def asArr : Option JVal → Option (List RemoteNote)
  | some (.arr xs) => some xs
  | _ => none

/-- The candidate scan of `extractNotes`: first array wins. -/
def firstArr : List (Option (List RemoteNote)) → List RemoteNote
  | [] => []
  | some xs :: _ => xs
  | none :: rest => firstArr rest

/-- `BlinkoClient.extractNotes`: a bare array, or the first array among
`.data.list`, `.data.records`, `.data`, `.list`; otherwise the empty list. -/
def extractNotes (payload : JVal) : List RemoteNote :=
  match payload with
  | .nullv => []
  | .arr xs => xs
  | .obj fields =>
    firstArr
      [asArr ((lookupField fields ("data")).bind (fun d => jGet d ("list"))),
       asArr ((lookupField fields ("data")).bind (fun d => jGet d ("records"))),
       asArr (lookupField fields ("data")),
       asArr (lookupField fields ("list"))]

/-- An HTTP response as the client consumes it: status, a best-effort JSON
parse (`none` when `response.json` throws), and the raw text. -/
structure HttpResp where
  status : Nat
  json : Option JVal
  text : String

/-- `BlinkoClient.getNotesByIds`.  `http` models `requestUrl` for this
endpoint (applied to the built URL and the request body ids); the second
component counts the HTTP requests issued.  `accessToken` only feeds the
bearer header and does not influence control flow. -/
def getNotesByIds (serverUrl _accessToken : String)
    (http : String → List Nat → HttpResp) (ids : List Nat) :
    Except String (List RemoteNote) × Nat :=
  if ids.isEmpty then (.ok [], 0)
  else
    match buildUrl serverUrl ("/v1/note/list-by-ids") false with
    | .error e => (.error e, 0)
    | .ok url =>
      let resp := http url ids
      if 400 ≤ resp.status then (.error ("Blinko API error"), 1)
      else
        match resp.json with
        | none => (.error ("Blinko API response is not valid JSON"), 1)
        | some payload => (.ok (extractNotes payload), 1)

/-! ## Vault adapter (VaultAdapter) -/

/-- Trim on character lists (JavaScript `String.trim`, whitespace model). -/
def trimChars (l : List Char) : List Char :=
  ((l.dropWhile Char.isWhitespace).reverse.dropWhile Char.isWhitespace).reverse

/-- JavaScript `split` on a single separator character. -/
def splitOnCharL (sep : Char) : List Char → List (List Char)
  | [] => [[]]
  | c :: rest =>
    let r := splitOnCharL sep rest
    if c = sep then [] :: r
    else
      match r with
      | h :: t => (c :: h) :: t
      | [] => [[c]]

/-- JavaScript `Array.join(sep)`. -/
def joinSep (sep : String) : List String → String
  | [] => ""
  | [x] => x
  | x :: xs => x ++ sep ++ joinSep sep xs

/-- `VaultAdapter.sanitizeFilename`: each illegal filename character becomes a
dash. -/
def sanitizeFilename (name : String) : String :=
  String.mk (name.data.map (fun c =>
    if c = '\\' ∨ c = '/' ∨ c = ':' ∨ c = '*' ∨ c = '?' ∨ c = '"' ∨ c = '<' ∨ c = '>' ∨ c = '|'
    then '-' else c))

/-- Model of Obsidian's `normalizePath`: backslashes become slashes, empty
segments collapse, and leading/trailing slashes are stripped. -/
def normalizePath (p : String) : String :=
  let repl := p.data.map (fun c => if c = '\\' then '/' else c)
  joinSep ("/") (((splitOnCharL '/' repl).map String.mk).filter (fun s => decide (s ≠ "")))

/-- `VaultAdapter.normalizeFolder`. -/
def normalizeFolder (input : String) : String :=
  let trimmed := myTrim input
  if trimmed = "" ∨ trimmed = "/" ∨ trimmed = "." then "" else normalizePath trimmed

/-- `VaultAdapter.buildAttachmentPath` (also used by the deletion manager). -/
def buildAttachmentPath (attachmentFolder name : String) : String :=
  let folder := myTrim attachmentFolder
  if folder = "" then normalizePath name
  else normalizePath (folder ++ ("/") ++ name)

/-- JavaScript `replace(/\r\n/g, '\n')`. -/
def replCRLF : List Char → List Char
  | [] => []
  | [c] => [c]
  | c :: d :: rest =>
    if c = '\r' ∧ d = '\n' then '\n' :: replCRLF rest
    else c :: replCRLF (d :: rest)

/-- JavaScript `String.endsWith`. -/
def strEndsWith (s p : String) : Bool := p.data.reverse.isPrefixOf s.data.reverse

/-- One attempted match of the bracket-link shape used by
`VaultAdapter.replaceAttachmentReference`: positioned right after an opening
bracket, a bracket-free label, the closing bracket, then the literal `target`
in parentheses.  Returns the captured label and the number of characters
consumed after the opening bracket. -/
def matchAfterBracket (target : List Char) (s : List Char) :
    Option (List Char × Nat) :=
  let lab := s.takeWhile (fun c => decide (c ≠ ']'))
  match s.dropWhile (fun c => decide (c ≠ ']')) with
  | ']' :: '(' :: s3 =>
    if target.isPrefixOf s3 then
      match s3.drop target.length with
      | ')' :: _ => some (lab, lab.length + 2 + target.length + 1)
      | _ => none
    else none
  | _ => none

/-- Replacement text for a matched embed: a local wiki-embed of the file. -/
def embedChars (name : List Char) : List Char :=
  '!' :: '[' :: '[' :: name ++ [']', ']']

/-- Replacement text for a matched link, preserving a non-empty alias. -/
def linkRepl (name lab : List Char) : List Char :=
  let al := trimChars lab
  if al.isEmpty then '[' :: '[' :: name ++ [']', ']']
  else '[' :: '[' :: name ++ '|' :: al ++ [']', ']']

/-- The global embed-rewriting pass of `replaceAttachmentReference`
(regex shaped like an image embed whose URL is the literal target). -/
def replaceEmbedsGo (target name : List Char) : List Char → List Char
  | [] => []
  | '!' :: '[' :: cs2 =>
    match matchAfterBracket target cs2 with
    | some (_, k) => embedChars name ++ replaceEmbedsGo target name (cs2.drop k)
    | none => '!' :: replaceEmbedsGo target name ('[' :: cs2)
  | c :: cs => c :: replaceEmbedsGo target name cs
termination_by l => l.length
decreasing_by
  all_goals simp only [List.length_drop, List.length_cons]
  all_goals omega

/-- The global link-rewriting pass of `replaceAttachmentReference`. -/
def replaceLinksGo (target name : List Char) : List Char → List Char
  | [] => []
  | '[' :: cs =>
    match matchAfterBracket target cs with
    | some (lab, k) => linkRepl name lab ++ replaceLinksGo target name (cs.drop k)
    | none => '[' :: replaceLinksGo target name cs
  | c :: cs => c :: replaceLinksGo target name cs
termination_by l => l.length
decreasing_by
  all_goals simp only [List.length_drop, List.length_cons]
  all_goals omega

/-- `VaultAdapter.replaceAttachmentReference`: skip when the target does not
occur, otherwise rewrite embeds and then links whose URL is the target. -/
def replaceAttachmentReference (content target localName : String) : String :=
  if target = "" ∨ strIncludes content target = false then content
  else
    String.mk (replaceLinksGo target.data localName.data
      (replaceEmbedsGo target.data localName.data content.data))

/-- The attachment fields used by the vault adapter; an empty `name` models a
missing name (falsy), an empty `path` a missing remote path. -/
structure VAttachment where
  id : Nat
  name : String
  path : String
deriving DecidableEq

/-- A Blinko tag after the `tag?.tag ?? tag` unwrapping (non-null entries). -/
structure BTag where
  id : Option Nat
  name : String
  parent : Option Nat
deriving DecidableEq

/-- The note fields used by the vault adapter (empty `title` models a missing
title). -/
structure VNote where
  id : Nat
  title : String
  content : String
  type : Option Int
  createdAt : String
  updatedAt : String
  tags : List BTag
  attachments : List VAttachment
deriving DecidableEq

/-- The vault adapter's settings together with its external collaborators:
`resolveUrl` and `dlOk` model the client (URL resolution and whether a
download succeeds), `mValid`/`mFormat` model moment.js validity and local
formatting, `aiEnabled`/`aiTitle` model the AI title service. -/
structure VaultCtx where
  attachmentFolder : String
  noteFolder : String
  notePathTemplate : String
  includeFrontmatterTags : Bool
  resolveUrl : String → String
  dlOk : String → Bool
  mValid : String → Bool
  mFormat : String → String → String
  aiEnabled : Bool
  aiTitle : Option String

/-- Observable outcome of `VaultAdapter.processAttachments`: the appended
block, the stored attachment names, the rewritten content, the binary files
present afterwards, the remote paths downloaded (in order), and the collected
reference/warning lines. -/
structure PAOut where
  block : String
  stored : List String
  content : String
  bins : List String
  downloads : List String
  refs : List String
deriving DecidableEq

/-- Local filename chosen for an attachment
(`sanitizeFilename(attachment.name || attachment-<id>)`). -/
def nameForAttachment (a : VAttachment) : String :=
  sanitizeFilename (if a.name = "" then ("attachment-") ++ toString a.id else a.name)

/-- Warning line for an attachment without a remote path. -/
def warnMissingPath (name : String) : String :=
  ("> [!warning] Attachment missing path: ") ++ name

/-- Warning line for a failed attachment download. -/
def warnDownloadFailed (name : String) : String :=
  ("> [!warning] Attachment download failed: ") ++ name

/-- Trailing embed reference for an attachment absent from the content. -/
def embedRef (name : String) : String := ("![[") ++ name ++ ("]]")

/-- The attachment loop of `VaultAdapter.processAttachments`.  The vault
adapter's filesystem probe (`adapter.exists`) is membership in `bins`; a
successful download writes the file (adds its path to `bins`). -/
def paGo (ctx : VaultCtx) :
    List VAttachment → List String → List String → String → List String → List String → PAOut
  | [], refs, stored, content, bins, dls =>
    ⟨if refs.isEmpty then "" else ("\n\n") ++ joinSep ("\n") refs,
     stored, content, bins, dls, refs⟩
  | a :: rest, refs, stored, content, bins, dls =>
    let name := nameForAttachment a
    if a.path = "" then
      paGo ctx rest (refs ++ [warnMissingPath name]) stored content bins dls
    else
      let apath := buildAttachmentPath ctx.attachmentFolder name
      if apath ∈ bins then
        let c1 := replaceAttachmentReference content (ctx.resolveUrl a.path) name
        let c2 := replaceAttachmentReference c1 a.path name
        let refs2 := if strIncludes c2 name then refs else refs ++ [embedRef name]
        paGo ctx rest refs2 (stored ++ [name]) c2 bins dls
      else if ctx.dlOk a.path then
        let c1 := replaceAttachmentReference content (ctx.resolveUrl a.path) name
        let c2 := replaceAttachmentReference c1 a.path name
        let refs2 := if strIncludes c2 name then refs else refs ++ [embedRef name]
        paGo ctx rest refs2 (stored ++ [name]) c2 (bins ++ [apath]) (dls ++ [a.path])
      else
        paGo ctx rest (refs ++ [warnDownloadFailed name]) stored content bins dls

/-- `VaultAdapter.processAttachments`. -/
def processAttachments (ctx : VaultCtx) (note : VNote) (bins : List String) : PAOut :=
  if note.attachments.isEmpty then ⟨"", [], note.content, bins, [], []⟩
  else paGo ctx note.attachments [] [] note.content bins []

/-- Insertion-ordered string set (JavaScript `Set<string>`). -/
def insertUniqStr (l : List String) (x : String) : List String :=
  if x ∈ l then l else l ++ [x]

/-- JavaScript `Map.set` on a number-keyed tag map (overwrite keeps position). -/
def setAssoc (l : List (Nat × BTag)) (k : Nat) (v : BTag) : List (Nat × BTag) :=
  if k ∈ l.map Prod.fst then l.map (fun p => if p.1 = k then (k, v) else p)
  else l ++ [(k, v)]

/-- JavaScript `Map.get`. -/
def lookupTag : List (Nat × BTag) → Nat → Option BTag
  | [], _ => none
  | (k, v) :: rest, key => if k = key then some v else lookupTag rest key

/-- The parent-walking loop of `VaultAdapter.buildTagPath`; the `visited` set
bounds the walk, so fuel `rawTags.length + 1` never runs out. -/
def buildTagPathGo (tagMap : List (Nat × BTag)) :
    Nat → BTag → List Nat → List String → List String
  | 0, _, _, segs => segs
  | fuel + 1, current, visited, segs =>
    let segs2 := if myTrim current.name = "" then segs else myTrim current.name :: segs
    match current.parent with
    | some pid =>
      match lookupTag tagMap pid with
      | some next =>
        if pid ≠ 0 ∧ pid ∉ visited then
          buildTagPathGo tagMap fuel next (pid :: visited) segs2
        else segs2
      | none => segs2
    | none => segs2

/-- `VaultAdapter.collectTags`: leaf-only flattened tag paths, deduplicated in
insertion order. -/
def collectTags (rawTags : List BTag) : List String :=
  let tagMap := rawTags.foldl
    (fun m t => match t.id with | some i => setAssoc m i t | none => m) []
  let parents := rawTags.foldl
    (fun s t => match t.parent with | some p => insertUniq s p | none => s) []
  rawTags.foldl
    (fun uniq t =>
      if (match t.id with | some i => decide (i ∈ parents) | none => false) then uniq
      else
        let path := joinSep ("/") (buildTagPathGo tagMap (rawTags.length + 1) t [] [])
        if path = "" then uniq else insertUniqStr uniq path)
    []

/-- `VaultAdapter.quoteTag`. -/
def quoteTag (tag : String) : String :=
  if tag = "" then ""
  else if tag.data.any Char.isWhitespace then ("\"") ++ tag ++ ("\"") else tag

/-- JavaScript `replace(/"/g, '\\"')`. -/
def escQuotes : List Char → List Char
  | [] => []
  | c :: t => if c = '"' then '\\' :: '"' :: escQuotes t else c :: escQuotes t

/-- `VaultAdapter.quoteAttachment`. -/
def quoteAttachment (name : String) : String :=
  if name = "" then "" else ("\"") ++ String.mk (escQuotes name.data) ++ ("\"")

/-- `VaultAdapter.mapType`. -/
def mapType : Option Int → String
  | some 1 => "note"
  | some 2 => "todo"
  | _ => "flash"

/-- The `blinkoTypeCode` value (`typeof note.type === 'number' ? note.type : 0`). -/
def typeCodeOf : Option Int → Int
  | some t => t
  | none => 0

/-- `VaultAdapter.getTypeFolder`. -/
def getTypeFolder : Option Int → String
  | some 1 => "Note"
  | some 2 => "Todo"
  | _ => "Flash"

/-- `VaultAdapter.formatLocalTimestamp` (moment modelled by the context). -/
def formatLocalTimestamp (ctx : VaultCtx) (value : String) : String :=
  if value = "" then ""
  else if ctx.mValid value then ctx.mFormat value ("YYYY-MM-DDTHH:mm:ssZ")
  else value

/-- `VaultAdapter.formatTemplateDate`. -/
def formatTemplateDate (ctx : VaultCtx) (value : String) (format : String) : String :=
  if value = "" then ""
  else if ctx.mValid value then
    ctx.mFormat value (if format = "" then ("YYYY-MM-DD") else format)
  else ""

/-- `VaultAdapter.ensureTrailingNewline`. -/
def ensureTrailingNewline (content : String) : String :=
  let normalized := String.mk (replCRLF content.data)
  if myTrim normalized = "" then "\n"
  else if strEndsWith normalized ("\n") then normalized
  else normalized ++ ("\n")

/-- The frontmatter line list built by `VaultAdapter.generateMarkdown`. -/
def frontmatterLines (ctx : VaultCtx) (note : VNote) (attachments : List String) :
    List String :=
  let base :=
    [("---"),
     ("id: ") ++ toString note.id,
     ("date: ") ++ formatLocalTimestamp ctx note.createdAt,
     ("updated: ") ++ formatLocalTimestamp ctx note.updatedAt,
     ("source: blinko"),
     ("blinkoType: ") ++ mapType note.type,
     ("blinkoTypeCode: ") ++ toString (typeCodeOf note.type),
     ("blinkoAttachments: [") ++ joinSep (", ") (attachments.map quoteAttachment) ++ ("]")]
  let withTags :=
    if ctx.includeFrontmatterTags then
      base ++ [("tags: [") ++ joinSep (", ") ((collectTags note.tags).map quoteTag) ++ ("]")]
    else base
  withTags ++ [("---"), ("")]

/-- `VaultAdapter.generateMarkdown`: joined frontmatter lines followed by the
normalized body (content plus the attachment block). -/
def generateMarkdown (ctx : VaultCtx) (note : VNote) (attachmentBlock : String)
    (attachments : List String) (content : String) : String :=
  joinSep ("\n") (frontmatterLines ctx note attachments) ++
    ensureTrailingNewline (content ++ attachmentBlock)

/-- JavaScript `replace(/^#+\s*/, '')` on one line. -/
def stripHeadingMark (line : String) : String :=
  match line.data with
  | '#' :: _ =>
    String.mk ((line.data.dropWhile (fun c => c = '#')).dropWhile Char.isWhitespace)
  | _ => line

/-- The first-content-line scan of `VaultAdapter.extractNoteTitle`. -/
def firstCleanedLine : List (List Char) → String
  | [] => ""
  | l :: rest =>
    let cleaned := myTrim (stripHeadingMark (String.mk l))
    if cleaned = "" then firstCleanedLine rest else cleaned

/-- `VaultAdapter.extractNoteTitle`. -/
def extractNoteTitle (note : VNote) (content : String) : String :=
  if myTrim note.title = "" then
    firstCleanedLine (splitOnCharL '\n' (replCRLF content.data))
  else myTrim note.title

/-- `VaultAdapter.resolveNoteTitle` (AI title service modelled by the context). -/
def resolveNoteTitle (ctx : VaultCtx) (note : VNote) (content : String) : String :=
  if myTrim note.title ≠ "" then myTrim note.title
  else
    match (if ctx.aiEnabled then ctx.aiTitle else none) with
    | some g => if myTrim g = "" then extractNoteTitle note content else myTrim g
    | none => extractNoteTitle note content

/-- `VaultAdapter.resolveTemplateTitle`. -/
def resolveTemplateTitle (note : VNote) (content : String) (explicitTitle : String) :
    String :=
  if myTrim explicitTitle = "" then extractNoteTitle note content
  else myTrim explicitTitle

/-- `VaultAdapter.resolveTemplateToken` (`token.split(':', 2)` keeps only the
first two segments). -/
def resolveTemplateToken (ctx : VaultCtx) (token : String) (note : VNote)
    (content : String) (explicitTitle : String) : String :=
  let parts := splitOnCharL ':' token.data
  let name := myTrim (String.mk (parts.headD []))
  let format := myTrim (String.mk (parts.getD 1 []))
  if name = "id" then toString note.id
  else if name = "type" then mapType note.type
  else if name = "typeFolder" then getTypeFolder note.type
  else if name = "title" ∨ name = "aiTitle" then
    resolveTemplateTitle note content explicitTitle
  else if name = "created" then formatTemplateDate ctx note.createdAt format
  else if name = "updated" then formatTemplateDate ctx note.updatedAt format
  else ""

/-- The global token-substitution pass of `VaultAdapter.renderTemplate`
(regex of shape open-braces, token, close-braces). -/
def tokenReplGo (ctx : VaultCtx) (note : VNote) (content : String)
    (explicitTitle : String) : List Char → List Char
  | [] => []
  | '\x7b' :: '\x7b' :: cs2 =>
    let run := cs2.takeWhile (fun x => decide (x ≠ '\x7d'))
    match cs2.drop run.length with
    | '\x7d' :: '\x7d' :: _ =>
      if run.isEmpty then '\x7b' :: tokenReplGo ctx note content explicitTitle ('\x7b' :: cs2)
      else
        (resolveTemplateToken ctx (String.mk run) note content explicitTitle).data
          ++ tokenReplGo ctx note content explicitTitle (cs2.drop (run.length + 2))
    | _ => '\x7b' :: tokenReplGo ctx note content explicitTitle ('\x7b' :: cs2)
  | c :: cs => c :: tokenReplGo ctx note content explicitTitle cs
termination_by l => l.length
decreasing_by
  all_goals simp only [List.length_drop, List.length_cons]
  all_goals omega

/-- `VaultAdapter.renderTemplate`. -/
def renderTemplate (ctx : VaultCtx) (template : String) (note : VNote)
    (content : String) (explicitTitle : String) : String :=
  let normalized := myTrim template
  if normalized = "" then ("blinko-") ++ toString note.id
  else String.mk (tokenReplGo ctx note content explicitTitle normalized.data)

/-- One attempted match of the case-insensitive id-token shape used by
`VaultAdapter.templateIncludesId`. -/
def idTokenAt : List Char → Bool
  | '\x7b' :: '\x7b' :: rest =>
    match rest.dropWhile Char.isWhitespace with
    | a :: b :: r2 =>
      if (a = 'i' ∨ a = 'I') ∧ (b = 'd' ∨ b = 'D') then
        match r2.dropWhile Char.isWhitespace with
        | '\x7d' :: '\x7d' :: _ => true
        | _ => false
      else false
    | _ => false
  | _ => false

/-- Scan for the id token anywhere in the template. -/
def hasIdToken : List Char → Bool
  | [] => false
  | c :: rest => if idTokenAt (c :: rest) then true else hasIdToken rest

/-- `VaultAdapter.templateIncludesId`. -/
def templateIncludesId (template : String) : Bool := hasIdToken template.data

/-- JavaScript `replace(/\s+/g, ' ')`. -/
def collapseWsGo : List Char → List Char
  | [] => []
  | c :: rest =>
    if Char.isWhitespace c then
      ' ' :: collapseWsGo (rest.drop ((rest.takeWhile Char.isWhitespace).length))
    else c :: collapseWsGo rest
termination_by l => l.length
decreasing_by
  all_goals simp only [List.length_drop, List.length_cons]
  all_goals omega

/-- `VaultAdapter.sanitizePathSegment`. -/
def sanitizePathSegment (segment : String) : String :=
  let trimmed := myTrim segment
  if trimmed = "" then ""
  else myTrim (String.mk (collapseWsGo (sanitizeFilename trimmed).data))

/-- JavaScript `toLowerCase`. -/
def strToLower (s : String) : String := String.mk (s.data.map Char.toLower)

/-- JavaScript `slice(0, -n)`. -/
def dropRightStr (s : String) (n : Nat) : String :=
  String.mk (s.data.take (s.data.length - n))

/-- `VaultAdapter.sanitizeTemplateOutput`. -/
def sanitizeTemplateOutput (raw : String) (noteId : Nat) : String :=
  let trimmed := myTrim raw
  let withoutExt :=
    if strEndsWith (strToLower trimmed) (".md") then dropRightStr trimmed 3 else trimmed
  let segments :=
    ((splitOnCharL '/' withoutExt.data).map
      (fun l => sanitizePathSegment (String.mk l))).filter (fun s => decide (s ≠ ""))
  if segments.isEmpty then ("blinko-") ++ toString noteId
  else joinSep ("/") segments

/-- `VaultAdapter.appendIdFallback`. -/
def appendIdFallback (path : String) (id : Nat) : String :=
  let normalized := myTrim path
  if normalized = "" then ("blinko-") ++ toString id
  else
    let segments := (splitOnCharL '/' normalized.data).map String.mk
    let front := segments.dropLast
    let last := (segments.getLast?).getD ""
    let suffix := ("blinko-") ++ toString id
    let nextLast := if last = "" then suffix else last ++ ("-") ++ suffix
    joinSep ("/") (front ++ [nextLast])

/-- The default note path template. -/
def defaultTemplate : String := "\x7b\x7btypeFolder\x7d\x7d/blinko-\x7b\x7bid\x7d\x7d"

/-- `VaultAdapter.buildNotePath`. -/
def buildNotePath (ctx : VaultCtx) (note : VNote) (content : String)
    (explicitTitle : String) : String :=
  let template := myTrim (if ctx.notePathTemplate = "" then defaultTemplate
    else ctx.notePathTemplate)
  let rendered := renderTemplate ctx template note content explicitTitle
  let sanitized := sanitizeTemplateOutput rendered note.id
  let ensured :=
    if templateIncludesId template then sanitized else appendIdFallback sanitized note.id
  let folder := normalizeFolder ctx.noteFolder
  let relative :=
    if strEndsWith (strToLower ensured) (".md") then dropRightStr ensured 3 else ensured
  let fullPath := if folder = "" then relative else folder ++ ("/") ++ relative
  normalizePath (fullPath ++ (".md"))

/-- The vault's file state: binary attachment files (paths) and text files
(path, contents). -/
structure Fs where
  bins : List String
  texts : List (String × String)
deriving DecidableEq

/-- `vault.modify`-or-`vault.create` as performed by
`VaultAdapter.writeOrUpdate` (last write wins at the target path). -/
def upsertText : List (String × String) → String → String → List (String × String)
  | [], p, c => [(p, c)]
  | (q, d) :: rest, p, c =>
    if q = p then (p, c) :: rest else (q, d) :: upsertText rest p c

/-- Read a text file back. -/
def lookupText : List (String × String) → String → Option String
  | [], _ => none
  | (q, d) :: rest, p => if q = p then some d else lookupText rest p

/-- `vault.rename` of a note file. -/
def renameText (texts : List (String × String)) (src dst : String) :
    List (String × String) :=
  texts.map (fun e => if e.1 = src then (dst, e.2) else e)

/-- SavedNoteResult of the vault adapter. -/
structure SavedVault where
  attachments : List String
  filePath : String
deriving DecidableEq

/-- `VaultAdapter.saveNote`.  `existing` models the note-path index lookup
(`findExistingNoteFile`): the previously materialized path of this note id,
when one exists. -/
def saveNote (ctx : VaultCtx) (existing : Option String) (note : VNote) (fs : Fs) :
    SavedVault × Fs :=
  let pa := processAttachments ctx note fs.bins
  let finalTitle := resolveNoteTitle ctx note pa.content
  let markdown := generateMarkdown ctx note pa.block pa.stored pa.content
  let filePath := buildNotePath ctx note pa.content finalTitle
  let texts1 :=
    match existing with
    | some p => if p ≠ filePath then renameText fs.texts p filePath else fs.texts
    | none => fs.texts
  (⟨pa.stored, filePath⟩, ⟨pa.bins, upsertText texts1 filePath markdown⟩)

/-- Reader-side frontmatter key extraction: after an opening delimiter line,
the text before the first colon of each line, up to the closing delimiter
line.  Used to compare the generated markdown against the specified key set. -/
def fmKeysGo : Nat → List Char → List String
  | 0, _ => []
  | _, [] => []
  | fuel + 1, c :: cs =>
    if ("---").data.isPrefixOf (c :: cs) then []
    else
      let key := (c :: cs).takeWhile (fun x => decide (x ≠ ':') && decide (x ≠ '\n'))
      let lineLen := ((c :: cs).takeWhile (fun x => decide (x ≠ '\n'))).length
      String.mk key :: fmKeysGo fuel ((c :: cs).drop (lineLen + 1))

/-- Frontmatter keys of a rendered markdown document. -/
def fmKeys (s : String) : List String :=
  if ("---\n").data.isPrefixOf s.data then fmKeysGo s.data.length (s.data.drop 4) else []

/-! ## Generic helper lemmas -/

theorem listPrefNil {α : Type} (l : List α) : ListPref [] l := ⟨l, rfl⟩

theorem listPrefExt {α : Type} (a b : List α) : ListPref a (a ++ b) := ⟨b, rfl⟩

theorem listPrefRefl {α : Type} (l : List α) : ListPref l l := ⟨[], by simp⟩

theorem listPrefTrans {α : Type} {a b c : List α} (h1 : ListPref a b)
    (h2 : ListPref b c) : ListPref a c := by
  obtain ⟨x, hx⟩ := h1
  obtain ⟨y, hy⟩ := h2
  exact ⟨x ++ y, by rw [← List.append_assoc, hx, hy]⟩

theorem listPrefAppend {α : Type} (x : List α) {a b : List α} (h : ListPref a b) :
    ListPref (x ++ a) (x ++ b) := by
  obtain ⟨t, ht⟩ := h
  exact ⟨t, by rw [List.append_assoc, ht]⟩

theorem listPrefCons {α : Type} (x : α) {a b : List α} (h : ListPref a b) :
    ListPref (x :: a) (x :: b) := by
  obtain ⟨t, ht⟩ := h
  exact ⟨t, by rw [List.cons_append, ht]⟩

theorem splitPrefCase {α : Type} {xs J fresh after : List α} {m : α}
    (h : xs ++ J = fresh ++ m :: after) (hle : xs.length ≤ fresh.length) :
    fresh = xs ++ fresh.drop xs.length ∧
      J = fresh.drop xs.length ++ m :: after := by
  have h1 := congrArg (List.take xs.length) h
  rw [List.take_left, List.take_append_of_le_length hle] at h1
  constructor
  · conv_lhs => rw [← List.take_append_drop xs.length fresh]
    rw [← h1]
  · have h2 := congrArg (List.drop xs.length) h
    rw [List.drop_left, List.drop_append_of_le_length hle] at h2
    exact h2

theorem splitMidCase {α : Type} {xs J fresh after : List α} {m : α}
    (h : xs ++ J = fresh ++ m :: after) (hlt : fresh.length < xs.length) :
    ∃ t2, xs = fresh ++ m :: t2 := by
  have hle : fresh.length ≤ xs.length := le_of_lt hlt
  have h1 := congrArg (List.take fresh.length) h
  rw [List.take_append_of_le_length hle, List.take_left] at h1
  have h2 := congrArg (List.drop fresh.length) h
  rw [List.drop_append_of_le_length hle, List.drop_left] at h2
  cases hd : xs.drop fresh.length with
  | nil =>
    have := congrArg List.length hd
    simp only [List.length_drop, List.length_nil] at this
    omega
  | cons d ds =>
    rw [hd] at h2
    simp only [List.cons_append, List.cons.injEq] at h2
    refine ⟨ds, ?_⟩
    have hx : xs = xs.take fresh.length ++ xs.drop fresh.length :=
      (List.take_append_drop _ _).symm
    rw [h1, hd, h2.1] at hx
    exact hx

/-! ## Lemmas about the sync note loop -/

theorem staleIffStop {cursor : Int} (hc : cursor ≠ 0) (n : SyncNote) :
    shouldStopNote cursor n = true ↔ staleNote cursor n := by
  unfold shouldStopNote staleNote
  cases h : n.updatedMs with
  | none => simp
  | some t => simp [hc]

theorem pnPrefAll {ε : Type} (save : SyncNote → Except ε SavedSync) (cursor : Int) :
    ∀ notes : List SyncNote, ListPref (processNotes save cursor notes).saved notes := by
  intro notes
  induction notes with
  | nil => exact listPrefNil _
  | cons n rest ih =>
    by_cases hs : shouldStopNote cursor n = true
    · simp only [processNotes, hs, if_pos]
      exact listPrefNil _
    · simp only [processNotes, hs, if_neg, Bool.not_eq_true]
      cases hsave : save n with
      | error e => exact listPrefNil _
      | ok r => exact listPrefCons n ih

theorem pnNoStop {ε : Type} (save : SyncNote → Except ε SavedSync) (cursor : Int) :
    ∀ notes : List SyncNote, (∀ n ∈ notes, shouldStopNote cursor n = false) →
    (processNotes save cursor notes).stopped = false ∧
    ((processNotes save cursor notes).err = none →
      (processNotes save cursor notes).saved = notes ∧
      (processNotes save cursor notes).newNotes = notes.length) := by
  intro notes
  induction notes with
  | nil => exact fun _ => ⟨rfl, fun _ => ⟨rfl, rfl⟩⟩
  | cons n rest ih =>
    intro h
    have hn : shouldStopNote cursor n = false := h n (by simp)
    have hrest := ih (fun x hx => h x (by simp [hx]))
    simp only [processNotes, hn, Bool.false_eq_true, if_neg, not_false_eq_true]
    cases hsave : save n with
    | error e => exact ⟨rfl, fun hc => by simp at hc⟩
    | ok r =>
      refine ⟨hrest.1, fun herr => ?_⟩
      have := hrest.2 herr
      simp [List.length_cons, this.1, this.2]

theorem pnAllOk {ε : Type} (save : SyncNote → Except ε SavedSync) (cursor : Int) :
    ∀ notes : List SyncNote, (∀ n ∈ notes, shouldStopNote cursor n = false) →
    (∀ n ∈ notes, ∃ r, save n = .ok r) →
    (processNotes save cursor notes).err = none := by
  intro notes
  induction notes with
  | nil => exact fun _ _ => rfl
  | cons n rest ih =>
    intro h hok
    have hn : shouldStopNote cursor n = false := h n (by simp)
    obtain ⟨r, hr⟩ := hok n (by simp)
    simp only [processNotes, hn, Bool.false_eq_true, if_neg, not_false_eq_true, hr]
    exact ih (fun x hx => h x (by simp [hx])) (fun x hx => hok x (by simp [hx]))

theorem pnStopPref {ε : Type} (save : SyncNote → Except ε SavedSync) (cursor : Int) :
    ∀ (fresh : List SyncNote) (m : SyncNote) (tail : List SyncNote),
    (∀ n ∈ fresh, shouldStopNote cursor n = false) →
    shouldStopNote cursor m = true →
    ListPref (processNotes save cursor (fresh ++ m :: tail)).saved fresh ∧
    ((processNotes save cursor (fresh ++ m :: tail)).err = none →
      (processNotes save cursor (fresh ++ m :: tail)).stopped = true) := by
  intro fresh
  induction fresh with
  | nil =>
    intro m tail _ hm
    simp only [List.nil_append, processNotes, hm, if_pos]
    exact ⟨listPrefNil _, fun _ => trivial⟩
  | cons f fs ih =>
    intro m tail h hm
    have hf : shouldStopNote cursor f = false := h f (by simp)
    simp only [List.cons_append, processNotes, hf, Bool.false_eq_true, if_neg,
      not_false_eq_true]
    cases hsave : save f with
    | error e => exact ⟨listPrefNil _, fun hc => by simp at hc⟩
    | ok r =>
      have := ih m tail (fun x hx => h x (by simp [hx])) hm
      exact ⟨listPrefCons f this.1, this.2⟩

theorem pnReach {ε : Type} (save : SyncNote → Except ε SavedSync) (cursor : Int) :
    ∀ (fresh : List SyncNote) (m : SyncNote) (tail : List SyncNote),
    (∀ n ∈ fresh, shouldStopNote cursor n = false ∧ ∃ r, save n = .ok r) →
    m ∈ (processNotes save cursor (fresh ++ m :: tail)).examined ∧
    (shouldStopNote cursor m = false → (∃ r, save m = .ok r) →
      m ∈ (processNotes save cursor (fresh ++ m :: tail)).saved) := by
  intro fresh
  induction fresh with
  | nil =>
    intro m tail _
    by_cases hm : shouldStopNote cursor m = true
    · simp only [List.nil_append, processNotes, hm, if_pos]
      exact ⟨by simp, fun hc _ => by simp [hm] at hc⟩
    · simp only [List.nil_append, processNotes, hm, if_neg]
      refine ⟨?_, fun _ hok => ?_⟩
      · cases hsave : save m with
        | error e => simp
        | ok r => simp
      · obtain ⟨r, hr⟩ := hok
        simp [hr]
  | cons f fs ih =>
    intro m tail h
    have hf := h f (by simp)
    obtain ⟨r, hr⟩ := hf.2
    simp only [List.cons_append, processNotes, hf.1, Bool.false_eq_true, if_neg,
      not_false_eq_true, hr]
    have := ih m tail (fun x hx => h x (by simp [hx]))
    exact ⟨by simp [this.1], fun h1 h2 => by simp [this.2 h1 h2]⟩

/-! ## Lemmas about the pagination loop -/

theorem ppSavedPref {ε : Type} (save : SyncNote → Except ε SavedSync) (cursor : Int)
    (pageSize : Nat) :
    ∀ (pagesL : List (List SyncNote)) (fresh after : List SyncNote) (m : SyncNote),
    pagesL.flatten = fresh ++ m :: after →
    (∀ n ∈ fresh, shouldStopNote cursor n = false) →
    shouldStopNote cursor m = true →
    ListPref (processPages save cursor pageSize (pagesL.map Except.ok)).saved fresh := by
  intro pagesL
  induction pagesL with
  | nil =>
    intro fresh after m h _ _
    have := congrArg List.length h
    simp only [List.flatten_nil, List.length_nil, List.length_append,
      List.length_cons] at this
    omega
  | cons notes rest ih =>
    intro fresh after m h hfresh hm
    simp only [List.flatten_cons] at h
    simp only [List.map_cons, processPages]
    by_cases hemp : notes.isEmpty
    · simp only [hemp, if_pos]
      exact listPrefNil _
    · simp only [hemp, Bool.false_eq_true, if_neg, not_false_eq_true]
      by_cases hlen : notes.length ≤ fresh.length
      · obtain ⟨hfr, hJ⟩ := splitPrefCase h hlen
        have hnf : ∀ n ∈ notes, shouldStopNote cursor n = false := by
          intro n hn
          exact hfresh n (by rw [hfr]; exact List.mem_append_left _ hn)
        have hps := pnNoStop save cursor notes hnf
        have hprefNotes : ListPref notes fresh := ⟨fresh.drop notes.length, hfr.symm⟩
        cases herr : (processNotes save cursor notes).err with
        | some e =>
          exact listPrefTrans (pnPrefAll save cursor notes) hprefNotes
        | none =>
          have hsv := (hps.2 herr).1
          by_cases hcond : ((processNotes save cursor notes).stopped
              || decide (notes.length < pageSize)) = true
          · rw [if_pos hcond, hsv]
            exact hprefNotes
          · have ihr := ih (fresh.drop notes.length) after m hJ
              (fun n hn => hfresh n (List.mem_of_mem_drop hn)) hm
            rw [if_neg hcond, hsv]
            have := listPrefAppend notes ihr
            rw [← hfr] at this
            exact this
      · push_neg at hlen
        obtain ⟨t2, hnotes⟩ := splitMidCase h hlen
        have hps := pnStopPref save cursor fresh m t2 hfresh hm
        rw [← hnotes] at hps
        cases herr : (processNotes save cursor notes).err with
        | some e =>
          exact hps.1
        | none =>
          have hcond : ((processNotes save cursor notes).stopped
              || decide (notes.length < pageSize)) = true := by
            rw [hps.2 herr]
            simp
          rw [if_pos hcond]
          exact hps.1

/-- One unfolding step of the pagination loop on a successful page fetch. -/
theorem ppStep {ε : Type} (save : SyncNote → Except ε SavedSync) (cursor : Int)
    (pageSize : Nat) (notes : List SyncNote)
    (rest : List (Except ε (List SyncNote))) :
    processPages save cursor pageSize (.ok notes :: rest) =
      (if notes.isEmpty then ⟨0, [], [], [], none, 1⟩
       else
        match (processNotes save cursor notes).err with
        | some e =>
          ⟨(processNotes save cursor notes).newNotes,
           (processNotes save cursor notes).flash,
           (processNotes save cursor notes).saved,
           (processNotes save cursor notes).examined, some e, 1⟩
        | none =>
          if (processNotes save cursor notes).stopped
              || decide (notes.length < pageSize) then
            ⟨(processNotes save cursor notes).newNotes,
             (processNotes save cursor notes).flash,
             (processNotes save cursor notes).saved,
             (processNotes save cursor notes).examined, none, 1⟩
          else
            ⟨(processNotes save cursor notes).newNotes +
               (processPages save cursor pageSize rest).newNotes,
             (processNotes save cursor notes).flash ++
               (processPages save cursor pageSize rest).flash,
             (processNotes save cursor notes).saved ++
               (processPages save cursor pageSize rest).saved,
             (processNotes save cursor notes).examined ++
               (processPages save cursor pageSize rest).examined,
             (processPages save cursor pageSize rest).err,
             1 + (processPages save cursor pageSize rest).fetches⟩) := rfl

theorem ppScenario {ε : Type} (save : SyncNote → Except ε SavedSync) (cursor : Int)
    (p1 p2tail : List SyncNote) (m : SyncNote) (rest : List (Except ε (List SyncNote)))
    (h1 : ∀ n ∈ p1, shouldStopNote cursor n = false)
    (hok : ∀ n ∈ p1, ∃ r, save n = .ok r)
    (hlen : p1.length = 50)
    (hm : shouldStopNote cursor m = true) :
    (processPages save cursor 50 (.ok p1 :: .ok (m :: p2tail) :: rest)).saved = p1 ∧
    (processPages save cursor 50 (.ok p1 :: .ok (m :: p2tail) :: rest)).newNotes = 50 ∧
    (processPages save cursor 50 (.ok p1 :: .ok (m :: p2tail) :: rest)).err = none := by
  have hne : p1.isEmpty = false := by
    cases p1 with
    | nil => simp at hlen
    | cons a b => rfl
  have herr := pnAllOk save cursor p1 h1 hok
  have hps := pnNoStop save cursor p1 h1
  have hsv := (hps.2 herr).1
  have hnn := (hps.2 herr).2
  have hcond : ((processNotes save cursor p1).stopped || decide (p1.length < 50)) = false := by
    rw [hps.1, hlen]
    simp
  have hs2 : processNotes save cursor (m :: p2tail) = ⟨0, [], [], [m], none, true⟩ := by
    simp [processNotes, hm]
  have hsecond : processPages save cursor 50 (.ok (m :: p2tail) :: rest) =
      (⟨0, [], [], [m], none, 1⟩ : PagesOut ε) := by
    rw [ppStep, hs2]
    rfl
  rw [ppStep, hne, herr, hcond, hsecond, hsv, hnn, hlen]
  refine ⟨?_, ?_, ?_⟩ <;> simp

theorem chunksOfGoFuelEq {α : Type} (n : Nat) :
    ∀ (f1 : Nat) (l : List α) (f2 : Nat), l.length ≤ f1 → l.length ≤ f2 →
    chunksOfGo n f1 l = chunksOfGo n f2 l := by
  intro f1
  induction f1 with
  | zero =>
    intro l f2 h1 _
    have : l = [] := by
      cases l with
      | nil => rfl
      | cons a b => simp at h1
    subst this
    cases f2 <;> rfl
  | succ f ih =>
    intro l f2 h1 h2
    cases l with
    | nil => cases f2 <;> rfl
    | cons x xs =>
      cases f2 with
      | zero => simp at h2
      | succ g =>
        simp only [chunksOfGo, List.cons.injEq, true_and]
        apply ih
        · simp only [List.length_drop]
          simp only [List.length_cons] at h1
          omega
        · simp only [List.length_drop]
          simp only [List.length_cons] at h2
          omega

theorem chunksOfCons {α : Type} (n : Nat) (x : α) (xs : List α) :
    chunksOf n (x :: xs) = (x :: xs.take (n - 1)) :: chunksOf n (xs.drop (n - 1)) := by
  unfold chunksOf
  simp only [List.length_cons, chunksOfGo, List.cons.injEq, true_and]
  apply chunksOfGoFuelEq
  · simp only [List.length_drop]
    omega
  · exact le_refl _

theorem ppReach {ε : Type} (save : SyncNote → Except ε SavedSync) (cursor : Int) :
    (feed : List SyncNote) → (fresh after : List SyncNote) → (m : SyncNote) →
    feed = fresh ++ m :: after →
    (∀ n ∈ fresh, shouldStopNote cursor n = false ∧ ∃ r, save n = .ok r) →
    m ∈ (processPages save cursor 50 ((chunksOf 50 feed).map Except.ok)).examined ∧
    (shouldStopNote cursor m = false → (∃ r, save m = .ok r) →
      m ∈ (processPages save cursor 50 ((chunksOf 50 feed).map Except.ok)).saved)
  | [], fresh, after, m, hfeed, hfr => by
    exfalso
    have := congrArg List.length hfeed
    simp only [List.length_nil, List.length_append, List.length_cons] at this
    omega
  | x :: xs, fresh, after, m, hfeed, hfr => by
    rw [chunksOfCons, List.map_cons]
    have hc1 : x :: xs.take (50 - 1) = (fresh ++ m :: after).take 50 := by
      rw [← hfeed]
      rfl
    have hdr : xs.drop (50 - 1) = (fresh ++ m :: after).drop 50 := by
      rw [show xs.drop (50 - 1) = (x :: xs).drop 50 from rfl, hfeed]
    rw [hc1, hdr]
    by_cases hlen : 50 ≤ fresh.length
    · have htake : (fresh ++ m :: after).take 50 = fresh.take 50 :=
        List.take_append_of_le_length hlen
      have hdrop : (fresh ++ m :: after).drop 50 = fresh.drop 50 ++ m :: after :=
        List.drop_append_of_le_length hlen
      have hmemfresh : ∀ n ∈ (fresh ++ m :: after).take 50, n ∈ fresh := by
        intro n hn
        rw [htake] at hn
        exact List.mem_of_mem_take hn
      have hns : ∀ n ∈ (fresh ++ m :: after).take 50, shouldStopNote cursor n = false :=
        fun n hn => (hfr n (hmemfresh n hn)).1
      have hoks : ∀ n ∈ (fresh ++ m :: after).take 50, ∃ r, save n = .ok r :=
        fun n hn => (hfr n (hmemfresh n hn)).2
      have herr := pnAllOk save cursor _ hns hoks
      have hps := pnNoStop save cursor _ hns
      have hlentake : ((fresh ++ m :: after).take 50).length = 50 := by
        have hlf := congrArg List.length hfeed
        simp only [List.length_cons, List.length_append] at hlf
        simp only [List.length_take, List.length_append, List.length_cons]
        omega
      have hne : ((fresh ++ m :: after).take 50).isEmpty = false := by
        cases hq : (fresh ++ m :: after).take 50 with
        | nil => rw [hq] at hlentake; simp at hlentake
        | cons a b => rfl
      have hcond : ((processNotes save cursor ((fresh ++ m :: after).take 50)).stopped
          || decide (((fresh ++ m :: after).take 50).length < 50)) = false := by
        rw [hps.1, hlentake]
        simp
      have ihr := ppReach save cursor (xs.drop (50 - 1)) (fresh.drop 50) after m
        (by rw [hdr, hdrop])
        (fun n hn => hfr n (List.mem_of_mem_drop hn))
      rw [hdr] at ihr
      rw [ppStep, hne, herr, hcond]
      exact ⟨List.mem_append_right _ ihr.1,
        fun hm hokm => List.mem_append_right _ (ihr.2 hm hokm)⟩
    · push_neg at hlen
      have htk : (fresh ++ m :: after).take 50 =
          fresh ++ m :: after.take (50 - fresh.length - 1) := by
        rw [List.take_append_eq_append_take]
        congr 1
        · exact List.take_of_length_le (le_of_lt hlen)
        · rw [show 50 - fresh.length = (50 - fresh.length - 1) + 1 by omega]
          rfl
      have hreach := pnReach save cursor fresh m (after.take (50 - fresh.length - 1)) hfr
      rw [← htk] at hreach
      have hne : ((fresh ++ m :: after).take 50).isEmpty = false := by
        rw [htk]
        cases fresh <;> rfl
      rw [ppStep, hne]
      cases herr : (processNotes save cursor ((fresh ++ m :: after).take 50)).err with
      | some e => exact ⟨hreach.1, fun hm hokm => hreach.2 hm hokm⟩
      | none =>
        by_cases hcond : ((processNotes save cursor ((fresh ++ m :: after).take 50)).stopped
            || decide (((fresh ++ m :: after).take 50).length < 50)) = true
        · rw [hcond]
          exact ⟨hreach.1, fun hm hokm => hreach.2 hm hokm⟩
        · rw [Bool.not_eq_true] at hcond
          rw [hcond]
          exact ⟨List.mem_append_left _ hreach.1,
            fun hm hokm => List.mem_append_left _ (hreach.2 hm hokm)⟩
termination_by feed => feed.length
decreasing_by
  simp only [List.length_drop, List.length_cons]
  omega

/-- One unfolding step of `startSync` when the single-flight guard is clear. -/
theorem startSyncStep {ε : Type} (u t : String) (c T : Int)
    (save : SyncNote → Except ε SavedSync)
    (pages : List (Except ε (List SyncNote))) :
    startSync false u t c T save pages =
      (if u = "" ∨ t = "" then ⟨.error .config, c, [], [], 0⟩
       else
        match (processPages save c 50 pages).err with
        | some e =>
          ⟨.error (.run e), c, (processPages save c 50 pages).saved,
           (processPages save c 50 pages).examined, (processPages save c 50 pages).fetches⟩
        | none =>
          ⟨.ok ⟨(processPages save c 50 pages).newNotes, (processPages save c 50 pages).flash⟩,
           T, (processPages save c 50 pages).saved,
           (processPages save c 50 pages).examined, (processPages save c 50 pages).fetches⟩) :=
  rfl

/-! ## Claim theorems for the sync engine -/

/-- C1 (counterexample): with a stored cursor of 0 (the never-synced default),
a delivered note whose parsed `updatedAt` (0) is less than or equal to the
cursor is nevertheless materialized and counted as new — JavaScript truthiness
of `lastSyncTime` disables the early-stop, contradicting the claim that the
first such note is never materialized. -/
theorem claimC1Counterexample :
    staleNote 0 ⟨1, ("1970-01-01T00:00:00.000Z"), some 0, none⟩ ∧
    (startSync false ("https://blinko.example") ("token") 0 100
      (fun _ => Except.ok ⟨[], ("p.md"), ("blinko-note-1")⟩)
      ([Except.ok [⟨1, ("1970-01-01T00:00:00.000Z"), some 0, none⟩]] :
        List (Except Unit (List SyncNote)))).saved =
      [⟨1, ("1970-01-01T00:00:00.000Z"), some 0, none⟩] ∧
    (startSync false ("https://blinko.example") ("token") 0 100
      (fun _ => Except.ok ⟨[], ("p.md"), ("blinko-note-1")⟩)
      ([Except.ok [⟨1, ("1970-01-01T00:00:00.000Z"), some 0, none⟩]] :
        List (Except Unit (List SyncNote)))).returned =
      Except.ok ⟨1, [⟨1, ("1970-01-01T00:00:00.000Z"), ("p.md"), ("blinko-note-1"), none⟩]⟩ := by
  refine ⟨⟨0, rfl, le_refl 0⟩, ?_, ?_⟩ <;> decide

/-- C1 (amended): provided the stored cursor is nonzero, notes are processed
in delivery order and the first note whose parsed `updatedAt` is at most the
cursor stops the whole pagination loop: the materialized notes are a prefix
of the delivered notes strictly before that note.  In particular, with page 1
(50 notes) entirely newer than the cursor and page 2 headed by a note with
`updatedAt` at most the cursor, exactly page 1's notes are materialized and
counted as new. -/
theorem claimC1Amended :
    (∀ (ε : Type) (save : SyncNote → Except ε SavedSync) (u t : String)
       (b : Bool) (cursor T : Int) (pagesL : List (List SyncNote))
       (fresh after : List SyncNote) (m : SyncNote),
       cursor ≠ 0 →
       pagesL.flatten = fresh ++ m :: after →
       (∀ n ∈ fresh, ¬ staleNote cursor n) →
       staleNote cursor m →
       ListPref (startSync b u t cursor T save (pagesL.map Except.ok)).saved fresh)
    ∧
    (∀ (ε : Type) (save : SyncNote → Except ε SavedSync) (u t : String)
       (cursor T : Int) (p1 p2tail : List SyncNote) (m : SyncNote)
       (rest : List (List SyncNote)),
       cursor ≠ 0 → u ≠ "" → t ≠ "" →
       p1.length = 50 →
       (∀ n ∈ p1, ¬ staleNote cursor n) →
       (∀ n ∈ p1, ∃ r, save n = .ok r) →
       staleNote cursor m →
       (startSync false u t cursor T save
         ((p1 :: (m :: p2tail) :: rest).map Except.ok)).saved = p1 ∧
       ∃ fl, (startSync false u t cursor T save
         ((p1 :: (m :: p2tail) :: rest).map Except.ok)).returned = Except.ok ⟨50, fl⟩) := by
  constructor
  · intro ε save u t b cursor T pagesL fresh after m hc hflat hfresh hstale
    have hfresh' : ∀ n ∈ fresh, shouldStopNote cursor n = false := by
      intro n hn
      have := hfresh n hn
      cases hq : shouldStopNote cursor n with
      | false => rfl
      | true => exact absurd ((staleIffStop hc n).mp hq) this
    have hm' : shouldStopNote cursor m = true := (staleIffStop hc m).mpr hstale
    cases b with
    | true => exact listPrefNil fresh
    | false =>
      rw [startSyncStep]
      by_cases hcfg : u = "" ∨ t = ""
      · rw [if_pos hcfg]
        exact listPrefNil fresh
      · rw [if_neg hcfg]
        have hpref := ppSavedPref save cursor 50 pagesL fresh after m hflat hfresh' hm'
        cases herr : (processPages save cursor 50 (pagesL.map Except.ok)).err with
        | some e => exact hpref
        | none => exact hpref
  · intro ε save u t cursor T p1 p2tail m rest hc hu ht hlen hfresh hok hstale
    have hfresh' : ∀ n ∈ p1, shouldStopNote cursor n = false := by
      intro n hn
      have := hfresh n hn
      cases hq : shouldStopNote cursor n with
      | false => rfl
      | true => exact absurd ((staleIffStop hc n).mp hq) this
    have hm' : shouldStopNote cursor m = true := (staleIffStop hc m).mpr hstale
    have hsc := ppScenario save cursor p1 p2tail m (rest.map Except.ok) hfresh' hok hlen hm'
    rw [startSyncStep, if_neg (not_or.mpr ⟨hu, ht⟩)]
    simp only [List.map_cons] at hsc ⊢
    rw [hsc.2.2]
    refine ⟨hsc.1, (processPages save cursor 50
      (Except.ok p1 :: Except.ok (m :: p2tail) :: rest.map Except.ok)).flash, ?_⟩
    rw [hsc.2.1]

/-- C1 (amended) witness: a concrete two-page run with a nonzero cursor, a
full first page of strictly newer notes and a second page headed by a note at
the cursor materializes exactly the 50 first-page notes. -/
theorem claimC1AmendedWitness :
    (startSync false ("u") ("t") 5 100
      (fun _ => Except.ok ⟨[], ("p"), ("b")⟩)
      (((List.replicate 50 (⟨1, ("c"), some 10, none⟩ : SyncNote)) ::
        [(⟨2, ("c"), some 5, none⟩ : SyncNote)] :: []).map Except.ok :
        List (Except Unit (List SyncNote)))).saved =
      List.replicate 50 ⟨1, ("c"), some 10, none⟩ ∧
    ∃ fl, (startSync false ("u") ("t") 5 100
      (fun _ => Except.ok ⟨[], ("p"), ("b")⟩)
      (((List.replicate 50 (⟨1, ("c"), some 10, none⟩ : SyncNote)) ::
        [(⟨2, ("c"), some 5, none⟩ : SyncNote)] :: []).map Except.ok :
        List (Except Unit (List SyncNote)))).returned = Except.ok ⟨50, fl⟩ :=
  claimC1Amended.2 Unit (fun _ => Except.ok ⟨[], ("p"), ("b")⟩) ("u") ("t") 5 100
    (List.replicate 50 ⟨1, ("c"), some 10, none⟩) []
    ⟨2, ("c"), some 5, none⟩ []
    (by decide) (by decide) (by decide) (by decide) (by decide)
    (fun n _ => ⟨⟨[], ("p"), ("b")⟩, rfl⟩) (by decide)

/-- C2: on every successfully completing pass the persisted cursor equals the
`syncStartTime` captured at the start of the pass — for all pages and all
materialization behaviours, hence independent of the maximum observed
`updatedAt` and of how long materialization takes.  Consequently, on the next
pass (cursor = that start time, pages the newest-first feed chunked by 50),
a note updated at or after the pass start is fetched and examined again, and
one updated strictly after it is materialized again. -/
theorem claimC2 :
    (∀ (ε : Type) (save : SyncNote → Except ε SavedSync) (u t : String)
       (c T : Int) (pages : List (Except ε (List SyncNote))) (res : SyncResult),
       (startSync false u t c T save pages).returned = Except.ok res →
       (startSync false u t c T save pages).cursor = T)
    ∧
    (∀ (ε : Type) (save : SyncNote → Except ε SavedSync) (u t : String)
       (T0 T1 : Int) (fresh after : List SyncNote) (m : SyncNote) (tm : Int),
       u ≠ "" → t ≠ "" →
       (∀ n ∈ fresh, (∃ s, n.updatedMs = some s ∧ T0 < s) ∧ ∃ r, save n = .ok r) →
       m.updatedMs = some tm → T0 ≤ tm →
       m ∈ (startSync false u t T0 T1 save
         ((chunksOf 50 (fresh ++ m :: after)).map Except.ok)).examined ∧
       (T0 < tm → (∃ r, save m = .ok r) →
         m ∈ (startSync false u t T0 T1 save
           ((chunksOf 50 (fresh ++ m :: after)).map Except.ok)).saved)) := by
  constructor
  · intro ε save u t c T pages res h
    rw [startSyncStep] at h ⊢
    by_cases hcfg : u = "" ∨ t = ""
    · rw [if_pos hcfg] at h
      simp at h
    · rw [if_neg hcfg] at h ⊢
      cases herr : (processPages save c 50 pages).err with
      | some e =>
        rw [herr] at h
        simp at h
      | none => rfl
  · intro ε save u t T0 T1 fresh after m tm hu ht hfr hmu hmle
    have hfr' : ∀ n ∈ fresh, shouldStopNote T0 n = false ∧ ∃ r, save n = .ok r := by
      intro n hn
      obtain ⟨⟨s, hs1, hs2⟩, hok⟩ := hfr n hn
      refine ⟨?_, hok⟩
      have hnot : ¬ (s ≤ T0) := by omega
      simp [shouldStopNote, hs1, hnot]
    have hreach := ppReach save T0 (fresh ++ m :: after) fresh after m rfl hfr'
    rw [startSyncStep, if_neg (not_or.mpr ⟨hu, ht⟩)]
    constructor
    · cases herr : (processPages save T0 50
        ((chunksOf 50 (fresh ++ m :: after)).map Except.ok)).err with
      | some e => exact hreach.1
      | none => exact hreach.1
    · intro hlt hok2
      have hm' : shouldStopNote T0 m = false := by
        have hnot : ¬ (tm ≤ T0) := by omega
        simp [shouldStopNote, hmu, hnot]
      cases herr : (processPages save T0 50
        ((chunksOf 50 (fresh ++ m :: after)).map Except.ok)).err with
      | some e => exact hreach.2 hm' hok2
      | none => exact hreach.2 hm' hok2

/-- C2 witness: a concrete next pass with cursor 100 whose feed holds one
strictly newer note followed by a note updated at 150: both the cursor
equation on a successful empty pass and the re-examination and
re-materialization of the updated note hold. -/
theorem claimC2Witness :
    (startSync false ("u") ("t") 5 77
      (fun _ => Except.ok ⟨[], ("p"), ("b")⟩)
      ([] : List (Except Unit (List SyncNote)))).cursor = 77 ∧
    (⟨2, ("c"), some 150, none⟩ : SyncNote) ∈ (startSync false ("u") ("t") 100 200
      (fun _ => Except.ok ⟨[], ("p"), ("b")⟩)
      ((chunksOf 50 ([⟨1, ("c"), some 300, none⟩] ++
        (⟨2, ("c"), some 150, none⟩ : SyncNote) :: [])).map Except.ok :
        List (Except Unit (List SyncNote)))).saved := by
  constructor
  · exact claimC2.1 Unit (fun _ => Except.ok ⟨[], ("p"), ("b")⟩) ("u") ("t") 5 77 []
      ⟨0, []⟩ (by decide)
  · exact (claimC2.2 Unit (fun _ => Except.ok ⟨[], ("p"), ("b")⟩) ("u") ("t") 100 200
      [⟨1, ("c"), some 300, none⟩] [] ⟨2, ("c"), some 150, none⟩ 150
      (by decide) (by decide)
      (fun n _ => ⟨⟨300, by
        simp_all, by decide⟩, ⟨[], ("p"), ("b")⟩, rfl⟩)
      rfl (by decide)).2 (by decide) ⟨⟨[], ("p"), ("b")⟩, rfl⟩

/-- C3: any page-fetch or per-note materialization error during a pass makes
`startSync` abort with that error propagated to the caller, and the stored
cursor keeps its value from before the pass (no partial-pass checkpointing). -/
theorem claimC3 : ∀ (ε : Type) (save : SyncNote → Except ε SavedSync) (u t : String)
    (c T : Int) (pages : List (Except ε (List SyncNote))) (e : ε),
    u ≠ "" → t ≠ "" →
    (processPages save c 50 pages).err = some e →
    (startSync false u t c T save pages).returned = Except.error (SyncError.run e) ∧
    (startSync false u t c T save pages).cursor = c := by
  intro ε save u t c T pages e hu ht herr
  rw [startSyncStep, if_neg (not_or.mpr ⟨hu, ht⟩), herr]
  exact ⟨rfl, rfl⟩

/-- C3 witness: a failing first page fetch propagates its error and leaves the
cursor at its previous value. -/
theorem claimC3Witness :
    (startSync false ("u") ("t") 5 99
      (fun _ => Except.ok ⟨[], ("p"), ("b")⟩)
      ([Except.error ("boom")] : List (Except String (List SyncNote)))).returned =
      Except.error (SyncError.run ("boom")) ∧
    (startSync false ("u") ("t") 5 99
      (fun _ => Except.ok ⟨[], ("p"), ("b")⟩)
      ([Except.error ("boom")] : List (Except String (List SyncNote)))).cursor = 5 :=
  claimC3 String (fun _ => Except.ok ⟨[], ("p"), ("b")⟩) ("u") ("t") 5 99
    [Except.error ("boom")] ("boom") (by decide) (by decide) (by decide)

/-- C5: both engines are single-flight — a `startSync` call while one is
running performs no fetch and no materialization and returns
newNotes 0 / flashNotes [] immediately with the cursor untouched, and a
`reconcileDeletedNotes` call while one is running performs no remote lookup
and no deletion and returns 0 immediately. -/
theorem claimC5 : ∀ (ε : Type) (save : SyncNote → Except ε SavedSync) (u t : String)
    (c T : Int) (pages : List (Except ε (List SyncNote))) (flag : Bool)
    (localIds : List Nat) (byIds : List Nat → List RemoteNote),
    startSync true u t c T save pages = (⟨Except.ok ⟨0, []⟩, c, [], [], 0⟩ : StartOut ε) ∧
    reconcileDeletedNotes true flag localIds byIds = ⟨0, [], 0⟩ := by
  intro ε save u t c T pages flag localIds byIds
  exact ⟨rfl, rfl⟩

/-! ## Lemmas about reconciliation -/

theorem insertUniqMem (l : List Nat) (x a : Nat) :
    a ∈ insertUniq l x ↔ a ∈ l ∨ a = x := by
  unfold insertUniq
  by_cases h : x ∈ l
  · rw [if_pos h]
    constructor
    · exact Or.inl
    · rintro (h1 | rfl)
      · exact h1
      · exact h
  · rw [if_neg h]
    simp

theorem foldInsertMem : ∀ (xs : List Nat) (l : List Nat) (a : Nat),
    a ∈ xs.foldl insertUniq l ↔ a ∈ l ∨ a ∈ xs := by
  intro xs
  induction xs with
  | nil => simp
  | cons x rest ih =>
    intro l a
    simp only [List.foldl_cons]
    rw [ih, insertUniqMem]
    simp only [List.mem_cons]
    tauto

theorem innerFoldMem : ∀ (notes : List RemoteNote) (acc : List Nat × List Nat) (a : Nat),
    (a ∈ (notes.foldl
        (fun acc2 note =>
          (insertUniq acc2.1 note.id,
           if note.isRecycle then insertUniq acc2.2 note.id else acc2.2)) acc).1 ↔
      a ∈ acc.1 ∨ ∃ n ∈ notes, n.id = a) ∧
    (a ∈ (notes.foldl
        (fun acc2 note =>
          (insertUniq acc2.1 note.id,
           if note.isRecycle then insertUniq acc2.2 note.id else acc2.2)) acc).2 ↔
      a ∈ acc.2 ∨ ∃ n ∈ notes, n.isRecycle = true ∧ n.id = a) := by
  intro notes
  induction notes with
  | nil => simp
  | cons nt rest ih =>
    intro acc a
    simp only [List.foldl_cons]
    constructor
    · rw [(ih _ a).1]
      simp only [insertUniqMem, List.mem_cons]
      constructor
      · rintro (⟨h1 | h2⟩ | h3)
        · exact Or.inl h1
        · exact Or.inr ⟨nt, Or.inl rfl, h2.symm⟩
        · obtain ⟨n, hn, hid⟩ := h3
          exact Or.inr ⟨n, Or.inr hn, hid⟩
      · rintro (h1 | ⟨n, hn | hn, hid⟩)
        · exact Or.inl (Or.inl h1)
        · exact Or.inl (Or.inr (by rw [← hn, hid]))
        · exact Or.inr ⟨n, hn, hid⟩
    · rw [(ih _ a).2]
      by_cases hr : nt.isRecycle
      · simp only [hr, if_pos, insertUniqMem, List.mem_cons]
        constructor
        · rintro (⟨h1 | h2⟩ | h3)
          · exact Or.inl h1
          · exact Or.inr ⟨nt, Or.inl rfl, hr, h2.symm⟩
          · obtain ⟨n, hn, hrec, hid⟩ := h3
            exact Or.inr ⟨n, Or.inr hn, hrec, hid⟩
        · rintro (h1 | ⟨n, hn | hn, hrec, hid⟩)
          · exact Or.inl (Or.inl h1)
          · exact Or.inl (Or.inr (by rw [← hn, hid]))
          · exact Or.inr ⟨n, hn, hrec, hid⟩
      · simp only [hr, if_neg, List.mem_cons]
        constructor
        · rintro (h1 | h3)
          · exact Or.inl h1
          · obtain ⟨n, hn, hrec, hid⟩ := h3
            exact Or.inr ⟨n, Or.inr hn, hrec, hid⟩
        · rintro (h1 | ⟨n, hn | hn, hrec, hid⟩)
          · exact Or.inl h1
          · exact absurd (by rw [← hn]; exact hrec) hr
          · exact Or.inr ⟨n, hn, hrec, hid⟩

theorem collectReportedMem (byIds : List Nat → List RemoteNote) :
    ∀ (chunks : List (List Nat)) (a : Nat),
    (a ∈ (collectReported byIds chunks).1 ↔
      ∃ c ∈ chunks, ∃ n ∈ byIds c, n.id = a) ∧
    (a ∈ (collectReported byIds chunks).2 ↔
      ∃ c ∈ chunks, ∃ n ∈ byIds c, n.isRecycle = true ∧ n.id = a) := by
  have main : ∀ (chunks : List (List Nat)) (acc : List Nat × List Nat) (a : Nat),
      (a ∈ (chunks.foldl
          (fun acc chunk =>
            (byIds chunk).foldl
              (fun acc2 note =>
                (insertUniq acc2.1 note.id,
                 if note.isRecycle then insertUniq acc2.2 note.id else acc2.2)) acc) acc).1 ↔
        a ∈ acc.1 ∨ ∃ c ∈ chunks, ∃ n ∈ byIds c, n.id = a) ∧
      (a ∈ (chunks.foldl
          (fun acc chunk =>
            (byIds chunk).foldl
              (fun acc2 note =>
                (insertUniq acc2.1 note.id,
                 if note.isRecycle then insertUniq acc2.2 note.id else acc2.2)) acc) acc).2 ↔
        a ∈ acc.2 ∨ ∃ c ∈ chunks, ∃ n ∈ byIds c, n.isRecycle = true ∧ n.id = a) := by
    intro chunks
    induction chunks with
    | nil => simp
    | cons c rest ih =>
      intro acc a
      simp only [List.foldl_cons]
      constructor
      · rw [(ih _ a).1, (innerFoldMem (byIds c) acc a).1]
        simp only [List.mem_cons]
        constructor
        · rintro (⟨h1 | h2⟩ | h3)
          · exact Or.inl h1
          · exact Or.inr ⟨c, Or.inl rfl, h2⟩
          · obtain ⟨d, hd, hn⟩ := h3
            exact Or.inr ⟨d, Or.inr hd, hn⟩
        · rintro (h1 | ⟨d, hd | hd, hn⟩)
          · exact Or.inl (Or.inl h1)
          · exact Or.inl (Or.inr (by rw [hd] at hn; exact hn))
          · exact Or.inr ⟨d, hd, hn⟩
      · rw [(ih _ a).2, (innerFoldMem (byIds c) acc a).2]
        simp only [List.mem_cons]
        constructor
        · rintro (⟨h1 | h2⟩ | h3)
          · exact Or.inl h1
          · exact Or.inr ⟨c, Or.inl rfl, h2⟩
          · obtain ⟨d, hd, hn⟩ := h3
            exact Or.inr ⟨d, Or.inr hd, hn⟩
        · rintro (h1 | ⟨d, hd | hd, hn⟩)
          · exact Or.inl (Or.inl h1)
          · exact Or.inl (Or.inr (by rw [hd] at hn; exact hn))
          · exact Or.inr ⟨d, hd, hn⟩
  intro chunks a
  have := main chunks ([], []) a
  unfold collectReported
  simpa using this

theorem chunksOfFlatten {α : Type} (n : Nat) (hn : 0 < n) :
    (l : List α) → (chunksOf n l).flatten = l
  | [] => by rfl
  | x :: xs => by
    rw [chunksOfCons]
    simp only [List.flatten_cons]
    rw [chunksOfFlatten n hn (xs.drop (n - 1)), List.cons_append,
      List.take_append_drop]
termination_by l => l.length
decreasing_by
  simp only [List.length_drop, List.length_cons]
  omega

theorem findMissingMem (byIds : List Nat → List RemoteNote) (ids : List Nat) (a : Nat) :
    (a ∈ (findMissingAndRecycledNoteIds byIds ids).1 ↔
      a ∈ ids ∧ ¬ ∃ c ∈ chunksOf 50 ids, ∃ n ∈ byIds c, n.id = a) ∧
    (a ∈ (findMissingAndRecycledNoteIds byIds ids).2 ↔
      ∃ c ∈ chunksOf 50 ids, ∃ n ∈ byIds c, n.isRecycle = true ∧ n.id = a) := by
  unfold findMissingAndRecycledNoteIds
  constructor
  · simp only [List.mem_filter, decide_eq_true_eq]
    rw [(collectReportedMem byIds (chunksOf 50 ids) a).1]
  · exact (collectReportedMem byIds (chunksOf 50 ids) a).2

theorem reconcileRemovedMem (flag : Bool) (localIds : List Nat)
    (byIds : List Nat → List RemoteNote) (a : Nat) :
    a ∈ (reconcileDeletedNotes false flag localIds byIds).removedIds ↔
      ((a ∈ (findMissingAndRecycledNoteIds byIds localIds).1 ∨
        (flag = true ∧ a ∈ (findMissingAndRecycledNoteIds byIds localIds).2)) ∧
       a ∈ localIds) := by
  unfold reconcileDeletedNotes
  by_cases hemp : localIds.isEmpty
  · rw [if_neg (by simp), if_pos hemp]
    have : localIds = [] := by
      cases localIds with
      | nil => rfl
      | cons x xs => simp at hemp
    simp [this]
  · rw [if_neg (by simp), if_neg hemp]
    have hto : ∀ b,
        (b ∈ (if flag then
            ((findMissingAndRecycledNoteIds byIds localIds).2).foldl insertUniq
              (((findMissingAndRecycledNoteIds byIds localIds).1).foldl insertUniq [])
          else ((findMissingAndRecycledNoteIds byIds localIds).1).foldl insertUniq [])) ↔
        (b ∈ (findMissingAndRecycledNoteIds byIds localIds).1 ∨
          (flag = true ∧ b ∈ (findMissingAndRecycledNoteIds byIds localIds).2)) := by
      intro b
      by_cases hf : flag = true
      · rw [if_pos hf, foldInsertMem, foldInsertMem]
        simp [hf]
      · rw [if_neg hf, foldInsertMem]
        simp [hf]
    by_cases hrem : (if flag then
        ((findMissingAndRecycledNoteIds byIds localIds).2).foldl insertUniq
          (((findMissingAndRecycledNoteIds byIds localIds).1).foldl insertUniq [])
      else ((findMissingAndRecycledNoteIds byIds localIds).1).foldl insertUniq []).isEmpty
    · rw [if_pos hrem]
      have hnone : ¬ (a ∈ (findMissingAndRecycledNoteIds byIds localIds).1 ∨
          (flag = true ∧ a ∈ (findMissingAndRecycledNoteIds byIds localIds).2)) := by
        rw [← hto a]
        intro hmem
        rw [List.isEmpty_iff] at hrem
        rw [hrem] at hmem
        simp at hmem
      exact iff_of_false (by simp) (fun hdisj => hnone hdisj.1)
    · rw [if_neg hrem]
      simp only [List.mem_filter, decide_eq_true_eq]
      rw [hto a]

theorem reconcileCountEq (flag : Bool) (localIds : List Nat)
    (byIds : List Nat → List RemoteNote) :
    (reconcileDeletedNotes false flag localIds byIds).removedCount =
      (reconcileDeletedNotes false flag localIds byIds).removedIds.length := by
  unfold reconcileDeletedNotes
  rw [if_neg (by simp)]
  by_cases hemp : localIds.isEmpty
  · rw [if_pos hemp]
    rfl
  · rw [if_neg hemp]
    by_cases hrem : (if flag then
        ((findMissingAndRecycledNoteIds byIds localIds).2).foldl insertUniq
          (((findMissingAndRecycledNoteIds byIds localIds).1).foldl insertUniq [])
      else ((findMissingAndRecycledNoteIds byIds localIds).1).foldl insertUniq []).isEmpty
    · rw [if_pos hrem]
      rfl
    · rw [if_neg hrem]

/-! ## Claim theorem for reconciliation -/

/-- C4: reconciliation computes `missingIds` as exactly the requested local
ids minus the ids the remote reports present across the 50-sized chunked
lookups; the removed set is `missingIds` when recycle-deletion is disabled
and `missingIds` union the reported `recycledIds` when enabled (for a remote
that only reports requested ids); the returned count is the number of note
files actually removed.  Concretely, for local ids 1,2,3 with remote present
1,2 and recycled 2: disabled removes exactly note 3 (count 1), enabled
removes exactly notes 3 and 2 (count 2). -/
theorem claimC4 :
    (∀ (byIds : List Nat → List RemoteNote) (ids : List Nat) (a : Nat),
      a ∈ (findMissingAndRecycledNoteIds byIds ids).1 ↔
        a ∈ ids ∧ a ∉ (((chunksOf 50 ids).map byIds).flatten).map RemoteNote.id)
    ∧
    (∀ (byIds : List Nat → List RemoteNote) (ids : List Nat) (a : Nat),
      a ∈ (findMissingAndRecycledNoteIds byIds ids).2 ↔
        a ∈ ((((chunksOf 50 ids).map byIds).flatten).filter
          (fun n => n.isRecycle)).map RemoteNote.id)
    ∧
    (∀ (flag : Bool) (localIds : List Nat) (byIds : List Nat → List RemoteNote),
      (∀ chunk, ∀ n ∈ byIds chunk, n.id ∈ chunk) →
      (∀ a, a ∈ (reconcileDeletedNotes false flag localIds byIds).removedIds ↔
        (a ∈ (findMissingAndRecycledNoteIds byIds localIds).1 ∨
          (flag = true ∧ a ∈ (findMissingAndRecycledNoteIds byIds localIds).2))) ∧
      (reconcileDeletedNotes false flag localIds byIds).removedCount =
        (reconcileDeletedNotes false flag localIds byIds).removedIds.length)
    ∧
    (reconcileDeletedNotes false false [1, 2, 3]
        (fun chunk => (chunk.filter (fun i => decide (i = 1 ∨ i = 2))).map
          (fun i => ⟨i, decide (i = 2)⟩)) = ⟨1, [3], 1⟩ ∧
     reconcileDeletedNotes false true [1, 2, 3]
        (fun chunk => (chunk.filter (fun i => decide (i = 1 ∨ i = 2))).map
          (fun i => ⟨i, decide (i = 2)⟩)) = ⟨2, [3, 2], 1⟩) := by
  refine ⟨?_, ?_, ?_, by decide, by decide⟩
  · intro byIds ids a
    rw [(findMissingMem byIds ids a).1]
    simp [List.mem_flatten]
  · intro byIds ids a
    rw [(findMissingMem byIds ids a).2]
    simp only [List.mem_map, List.mem_filter, List.mem_flatten]
    constructor
    · rintro ⟨c, hc, n, hn, hrec, hid⟩
      exact ⟨n, ⟨⟨byIds c, ⟨c, hc, rfl⟩, hn⟩, hrec⟩, hid⟩
    · rintro ⟨n, ⟨⟨l, ⟨c, hc, rfl⟩, hn⟩, hrec⟩, hid⟩
      exact ⟨c, hc, n, hn, hrec, hid⟩
  · intro flag localIds byIds hwb
    constructor
    · intro a
      rw [reconcileRemovedMem]
      constructor
      · exact fun h => h.1
      · intro h
        refine ⟨h, ?_⟩
        rcases h with hmiss | ⟨_, hrec⟩
        · exact ((findMissingMem byIds localIds a).1.mp hmiss).1
        · obtain ⟨c, hc, n, hn, _, hid⟩ := (findMissingMem byIds localIds a).2.mp hrec
          have : a ∈ c := by
            rw [← hid]
            exact hwb c n hn
          have hflat : a ∈ (chunksOf 50 localIds).flatten :=
            List.mem_flatten.mpr ⟨c, hc, this⟩
          rw [chunksOfFlatten 50 (by omega) localIds] at hflat
          exact hflat
    · exact reconcileCountEq flag localIds byIds

/-- C4 witness: the sets behave as stated on the concrete scenario inputs. -/
theorem claimC4Witness :
    (3 ∈ (reconcileDeletedNotes false false [1, 2, 3]
      (fun chunk => (chunk.filter (fun i => decide (i = 1 ∨ i = 2))).map
        (fun i => ⟨i, decide (i = 2)⟩))).removedIds ↔
      (3 ∈ (findMissingAndRecycledNoteIds
        (fun chunk => (chunk.filter (fun i => decide (i = 1 ∨ i = 2))).map
          (fun i => (⟨i, decide (i = 2)⟩ : RemoteNote))) [1, 2, 3]).1 ∨
        (false = true ∧ 3 ∈ (findMissingAndRecycledNoteIds
          (fun chunk => (chunk.filter (fun i => decide (i = 1 ∨ i = 2))).map
            (fun i => (⟨i, decide (i = 2)⟩ : RemoteNote))) [1, 2, 3]).2))) ∧
    (reconcileDeletedNotes false false [1, 2, 3]
      (fun chunk => (chunk.filter (fun i => decide (i = 1 ∨ i = 2))).map
        (fun i => ⟨i, decide (i = 2)⟩))).removedCount =
      (reconcileDeletedNotes false false [1, 2, 3]
        (fun chunk => (chunk.filter (fun i => decide (i = 1 ∨ i = 2))).map
          (fun i => ⟨i, decide (i = 2)⟩))).removedIds.length :=
  (claimC4.2.2.1 false [1, 2, 3]
    (fun chunk => (chunk.filter (fun i => decide (i = 1 ∨ i = 2))).map
      (fun i => ⟨i, decide (i = 2)⟩))
    (by
      intro chunk n hn
      simp only [List.mem_map, List.mem_filter] at hn
      obtain ⟨i, ⟨hi, _⟩, rfl⟩ := hn
      exact hi)).imp (fun h => h 3) id

/-! ## Claim theorem for the remote client -/

/-- C10: `getNotesByIds` called with an empty id list returns the empty list
immediately and issues no HTTP request, for every settings configuration —
including an unset server URL or token, since the guard precedes `buildUrl`'s
configuration check. -/
theorem claimC10 : ∀ (serverUrl accessToken : String)
    (http : String → List Nat → HttpResp),
    getNotesByIds serverUrl accessToken http [] = (Except.ok [], 0) := by
  intro u t h
  rfl

/-! ## Substring lemmas for the attachment warnings -/

theorem isPrefixOfExtend : ∀ (w x y : List Char),
    w.isPrefixOf x = true → w.isPrefixOf (x ++ y) = true := by
  intro w
  induction w with
  | nil => intro x y _; simp [List.isPrefixOf]
  | cons c w' ih =>
    intro x y h
    cases x with
    | nil => simp [List.isPrefixOf] at h
    | cons d x' =>
      simp only [List.isPrefixOf, List.cons_append, Bool.and_eq_true] at h ⊢
      exact ⟨h.1, ih x' y h.2⟩

theorem isPrefixOfSelfAppend : ∀ (w z : List Char), w.isPrefixOf (w ++ z) = true := by
  intro w
  induction w with
  | nil => intro z; simp [List.isPrefixOf]
  | cons c w' ih =>
    intro z
    simp only [List.cons_append, List.isPrefixOf, Bool.and_eq_true]
    exact ⟨by simp, ih z⟩

theorem listIncludesNilNeedle (h : List Char) : listIncludes h [] = true := by
  unfold listIncludes
  rw [if_pos (by simp [List.isPrefixOf])]

theorem listIncludesOfPrefix (h n : List Char) (hp : n.isPrefixOf h = true) :
    listIncludes h n = true := by
  unfold listIncludes
  rw [if_pos hp]

theorem listIncludesCons (c : Char) (t n : List Char) (h : listIncludes t n = true) :
    listIncludes (c :: t) n = true := by
  unfold listIncludes
  by_cases hp : n.isPrefixOf (c :: t) = true
  · rw [if_pos hp]
  · rw [if_neg hp]
    exact h

theorem listIncludesAppendLeft : ∀ (x : List Char) (w y : List Char),
    listIncludes x w = true → listIncludes (x ++ y) w = true := by
  intro x
  induction x with
  | nil =>
    intro w y h
    unfold listIncludes at h
    by_cases hp : w.isPrefixOf ([] : List Char) = true
    · cases w with
      | nil => exact listIncludesNilNeedle _
      | cons c t => simp [List.isPrefixOf] at hp
    · rw [if_neg hp] at h
      simp at h
  | cons c x' ih =>
    intro w y h
    unfold listIncludes at h
    rw [List.cons_append]
    by_cases hp : w.isPrefixOf (c :: x') = true
    · refine listIncludesOfPrefix _ _ ?_
      have hext := isPrefixOfExtend w (c :: x') y hp
      rw [List.cons_append] at hext
      exact hext
    · rw [if_neg hp] at h
      exact listIncludesCons c _ w (ih w y h)

theorem listIncludesAppendRight : ∀ (x : List Char) (y w : List Char),
    listIncludes y w = true → listIncludes (x ++ y) w = true := by
  intro x
  induction x with
  | nil => intro y w h; exact h
  | cons c x' ih =>
    intro y w h
    exact listIncludesCons c _ w (ih y w h)

theorem listIncludesSubset : ∀ (l w : List Char),
    listIncludes l w = true → ∀ c ∈ w, c ∈ l := by
  intro l
  induction l with
  | nil =>
    intro w h c hc
    unfold listIncludes at h
    by_cases hp : w.isPrefixOf ([] : List Char) = true
    · cases w with
      | nil => simp at hc
      | cons a t => simp [List.isPrefixOf] at hp
    · rw [if_neg hp] at h
      simp at h
  | cons d l' ih =>
    intro w h c hc
    unfold listIncludes at h
    by_cases hp : w.isPrefixOf (d :: l') = true
    · have : ∃ t, w ++ t = d :: l' := by
        clear h ih hc
        induction w generalizing d l' with
        | nil => exact ⟨d :: l', rfl⟩
        | cons a w' ihw =>
          simp only [List.isPrefixOf, Bool.and_eq_true, beq_iff_eq] at hp
          cases l' with
          | nil =>
            cases w' with
            | nil => exact ⟨[], by simp [hp.1]⟩
            | cons b w'' => simp [List.isPrefixOf] at hp
          | cons e l'' =>
            obtain ⟨t, ht⟩ := ihw e l'' hp.2
            exact ⟨t, by simp [hp.1, ht]⟩
      obtain ⟨t, ht⟩ := this
      rw [← ht]
      exact List.mem_append_left t hc
    · rw [if_neg hp] at h
      exact List.mem_cons_of_mem d (ih w h c hc)

theorem replCRLFConsNe (c : Char) (l : List Char) (hc : c ≠ '\r') :
    replCRLF (c :: l) = c :: replCRLF l := by
  cases l with
  | nil => rfl
  | cons d rest =>
    rw [replCRLF, if_neg (by intro hand; exact hc hand.1)]

theorem replCRLFCleanAppend : ∀ (w : List Char),
    (∀ c ∈ w, c ≠ '\r') → ∀ v, replCRLF (w ++ v) = w ++ replCRLF v := by
  intro w
  induction w with
  | nil => intro _ v; rfl
  | cons c w' ih =>
    intro hw v
    rw [List.cons_append, replCRLFConsNe c _ (hw c (by simp)),
      ih (fun x hx => hw x (by simp [hx])) v, List.cons_append]

theorem replCRLFIncludes (w : List Char)
    (hw : ∀ c ∈ w, c ≠ '\r' ∧ c ≠ '\n') :
    (u : List Char) → ∀ v, listIncludes (replCRLF (u ++ (w ++ v))) w = true
  | [] => fun v => by
    rw [List.nil_append, replCRLFCleanAppend w (fun c hc => (hw c hc).1) v]
    exact listIncludesOfPrefix _ _ (isPrefixOfSelfAppend w _)
  | c :: u' => fun v => by
    rw [List.cons_append]
    by_cases hc : c = '\r'
    · subst hc
      cases hq : u' ++ (w ++ v) with
      | nil =>
        have hw0 : w = [] := by
          have := List.append_eq_nil.mp hq
          exact (List.append_eq_nil.mp this.2).1
        rw [hw0]
        exact listIncludesNilNeedle _
      | cons d rest2 =>
        rw [replCRLF]
        by_cases hd : d = '\n'
        · rw [if_pos ⟨rfl, hd⟩]
          cases u' with
          | nil =>
            rw [List.nil_append] at hq
            cases w with
            | nil => exact listIncludesNilNeedle _
            | cons a w2 =>
              rw [List.cons_append] at hq
              have ha : a = d := (List.cons.injEq _ _ _ _).mp hq |>.1
              exact absurd (ha.trans hd) (hw a (by simp)).2
          | cons e u'' =>
            rw [List.cons_append] at hq
            have hrest : rest2 = u'' ++ (w ++ v) :=
              ((List.cons.injEq _ _ _ _).mp hq).2.symm
            rw [hrest]
            exact listIncludesCons _ _ _ (replCRLFIncludes w hw u'' v)
        · rw [if_neg (by intro hand; exact hd hand.2)]
          rw [← hq]
          exact listIncludesCons _ _ _ (replCRLFIncludes w hw u' v)
    · rw [replCRLFConsNe c _ hc]
      exact listIncludesCons _ _ _ (replCRLFIncludes w hw u' v)
termination_by u => u.length
decreasing_by
  · simp only [List.length_cons]
    omega
  · simp only [List.length_cons]
    omega
  · simp only [List.length_cons]
    omega

theorem myTrimEqTrimChars (s : String) : myTrim s = String.mk (trimChars s.data) := rfl

theorem memDropWhile {p : Char → Bool} (c : Char) (hc : p c = false) :
    ∀ (l : List Char), c ∈ l → c ∈ l.dropWhile p := by
  intro l
  induction l with
  | nil => intro h; simp at h
  | cons d t ih =>
    intro h
    by_cases hd : p d = true
    · rw [List.dropWhile_cons_of_pos hd]
      rcases List.mem_cons.mp h with rfl | hmem
      · rw [hc] at hd; cases hd
      · exact ih hmem
    · rw [List.dropWhile_cons_of_neg hd]
      exact h

theorem trimCharsKeeps (c : Char) (hc : Char.isWhitespace c = false) :
    ∀ (l : List Char), c ∈ l → c ∈ trimChars l := by
  intro l hl
  unfold trimChars
  rw [List.mem_reverse]
  apply memDropWhile c hc
  rw [List.mem_reverse]
  exact memDropWhile c hc l hl

theorem trimCharsNeNil (l : List Char) (c : Char) (hc : Char.isWhitespace c = false)
    (hl : c ∈ l) : trimChars l ≠ [] := by
  intro hnil
  have := trimCharsKeeps c hc l hl
  rw [hnil] at this
  simp at this

/-- The body normalization preserves a substring that contains a
non-whitespace character and no carriage return or newline boundary issues. -/
theorem etnIncludes (s : String) (w : List Char)
    (hinc : listIncludes (replCRLF s.data) w = true)
    (hnw : ∃ c ∈ w, Char.isWhitespace c = false) :
    listIncludes (ensureTrailingNewline s).data w = true := by
  obtain ⟨c0, hc0w, hc0⟩ := hnw
  have hc0mem : c0 ∈ replCRLF s.data := listIncludesSubset _ w hinc c0 hc0w
  have htrim : myTrim (String.mk (replCRLF s.data)) ≠ "" := by
    rw [myTrimEqTrimChars]
    intro hempty
    have : trimChars (String.mk (replCRLF s.data)).data = [] := by
      have := congrArg String.data hempty
      exact this
    exact trimCharsNeNil _ c0 hc0 hc0mem this
  unfold ensureTrailingNewline
  rw [if_neg htrim]
  by_cases hend : strEndsWith (String.mk (replCRLF s.data)) ("\n") = true
  · rw [if_pos hend]
    exact hinc
  · rw [if_neg hend]
    rw [String.data_append]
    exact listIncludesAppendLeft _ w _ hinc

theorem strIncludesAppendRight (x y w : String)
    (h : strIncludes y w = true) : strIncludes (x ++ y) w = true := by
  unfold strIncludes at h ⊢
  rw [String.data_append]
  exact listIncludesAppendRight x.data y.data w.data h

/-! ## Unfolding lemmas for the attachment loop -/

theorem paGoNil (ctx : VaultCtx) (refs stored : List String) (content : String)
    (bins dls : List String) :
    paGo ctx [] refs stored content bins dls =
      ⟨if refs.isEmpty then "" else ("\n\n") ++ joinSep ("\n") refs,
       stored, content, bins, dls, refs⟩ := rfl

theorem paGoMissing (ctx : VaultCtx) (a : VAttachment) (rest : List VAttachment)
    (refs stored : List String) (content : String) (bins dls : List String)
    (h : a.path = "") :
    paGo ctx (a :: rest) refs stored content bins dls =
      paGo ctx rest (refs ++ [warnMissingPath (nameForAttachment a)])
        stored content bins dls := by
  simp only [paGo]
  rw [if_pos h]

theorem paGoExists (ctx : VaultCtx) (a : VAttachment) (rest : List VAttachment)
    (refs stored : List String) (content : String) (bins dls : List String)
    (h1 : a.path ≠ "")
    (h2 : buildAttachmentPath ctx.attachmentFolder (nameForAttachment a) ∈ bins) :
    paGo ctx (a :: rest) refs stored content bins dls =
      paGo ctx rest
        (if strIncludes
            (replaceAttachmentReference
              (replaceAttachmentReference content (ctx.resolveUrl a.path)
                (nameForAttachment a))
              a.path (nameForAttachment a))
            (nameForAttachment a) = true
         then refs else refs ++ [embedRef (nameForAttachment a)])
        (stored ++ [nameForAttachment a])
        (replaceAttachmentReference
          (replaceAttachmentReference content (ctx.resolveUrl a.path)
            (nameForAttachment a))
          a.path (nameForAttachment a))
        bins dls := by
  simp only [paGo]
  rw [if_neg h1, if_pos h2]

theorem paGoDownload (ctx : VaultCtx) (a : VAttachment) (rest : List VAttachment)
    (refs stored : List String) (content : String) (bins dls : List String)
    (h1 : a.path ≠ "")
    (h2 : buildAttachmentPath ctx.attachmentFolder (nameForAttachment a) ∉ bins)
    (h3 : ctx.dlOk a.path = true) :
    paGo ctx (a :: rest) refs stored content bins dls =
      paGo ctx rest
        (if strIncludes
            (replaceAttachmentReference
              (replaceAttachmentReference content (ctx.resolveUrl a.path)
                (nameForAttachment a))
              a.path (nameForAttachment a))
            (nameForAttachment a) = true
         then refs else refs ++ [embedRef (nameForAttachment a)])
        (stored ++ [nameForAttachment a])
        (replaceAttachmentReference
          (replaceAttachmentReference content (ctx.resolveUrl a.path)
            (nameForAttachment a))
          a.path (nameForAttachment a))
        (bins ++ [buildAttachmentPath ctx.attachmentFolder (nameForAttachment a)])
        (dls ++ [a.path]) := by
  simp only [paGo]
  rw [if_neg h1, if_neg h2, if_pos h3]

theorem paGoDlFail (ctx : VaultCtx) (a : VAttachment) (rest : List VAttachment)
    (refs stored : List String) (content : String) (bins dls : List String)
    (h1 : a.path ≠ "")
    (h2 : buildAttachmentPath ctx.attachmentFolder (nameForAttachment a) ∉ bins)
    (h3 : ctx.dlOk a.path = false) :
    paGo ctx (a :: rest) refs stored content bins dls =
      paGo ctx rest (refs ++ [warnDownloadFailed (nameForAttachment a)])
        stored content bins dls := by
  simp only [paGo]
  rw [if_neg h1, if_neg h2, if_neg (by simp [h3])]

theorem paSingleton (ctx : VaultCtx) (note : VNote) (a : VAttachment)
    (bins : List String) (hatt : note.attachments = [a]) :
    processAttachments ctx note bins = paGo ctx [a] [] [] note.content bins [] := by
  rw [processAttachments, hatt]
  rfl

/-! ## File-state lemmas -/

theorem lookupUpsert : ∀ (texts : List (String × String)) (p c : String),
    lookupText (upsertText texts p c) p = some c := by
  intro texts
  induction texts with
  | nil =>
    intro p c
    simp [upsertText, lookupText]
  | cons e rest ih =>
    intro p c
    obtain ⟨q, d⟩ := e
    by_cases hq : q = p
    · simp only [upsertText]
      rw [if_pos hq]
      simp [lookupText]
    · simp only [upsertText]
      rw [if_neg hq]
      simp only [lookupText]
      rw [if_neg hq]
      exact ih p c

/-! ## Trailing-newline and joining lemmas -/

theorem strEndsWithAppendSelf (x p : String) : strEndsWith (x ++ p) p = true := by
  unfold strEndsWith
  rw [String.data_append, List.reverse_append]
  exact isPrefixOfSelfAppend _ _

theorem strEndsWithAppendRight (x y w : String) (h : strEndsWith y w = true) :
    strEndsWith (x ++ y) w = true := by
  unfold strEndsWith at h ⊢
  rw [String.data_append, List.reverse_append]
  exact isPrefixOfExtend _ _ _ h

theorem etnEndsWith (s : String) :
    strEndsWith (ensureTrailingNewline s) ("\n") = true := by
  simp only [ensureTrailingNewline]
  by_cases h1 : myTrim (String.mk (replCRLF s.data)) = ""
  · rw [if_pos h1]
    decide
  · rw [if_neg h1]
    by_cases h2 : strEndsWith (String.mk (replCRLF s.data)) ("\n") = true
    · rw [if_pos h2]
      exact h2
    · rw [if_neg h2]
      exact strEndsWithAppendSelf _ _

theorem joinSepCons (sep x : String) (xs : List String) (h : xs ≠ []) :
    joinSep sep (x :: xs) = x ++ sep ++ joinSep sep xs := by
  cases xs with
  | nil => cases h rfl
  | cons y ys => rfl

theorem joinSepClosing : ∀ (l : List String),
    strEndsWith (joinSep ("\n") (l ++ [("---"), ("")])) ("---\n") = true := by
  intro l
  induction l with
  | nil => decide
  | cons x xs ih =>
    rw [List.cons_append, joinSepCons ("\n") x _ (by simp)]
    exact strEndsWithAppendRight _ _ _ ih

/-- Any line appended to the body after a blank separator survives into the
generated markdown, provided it has no newline or carriage return of its own
and is not whitespace-only. -/
theorem mdIncludesLine (ctx : VaultCtx) (note : VNote) (atts : List String)
    (content line : String)
    (hline : ∀ c ∈ line.data, c ≠ '\r' ∧ c ≠ '\n')
    (hnw : ∃ c ∈ line.data, Char.isWhitespace c = false) :
    strIncludes (generateMarkdown ctx note (("\n\n") ++ line) atts content)
      line = true := by
  have h := replCRLFIncludes line.data hline (content.data ++ ['\n', '\n']) []
  rw [List.append_nil, List.append_assoc] at h
  have hinc : listIncludes (replCRLF (content ++ (("\n\n") ++ line)).data)
      line.data = true := by
    have hdata : (content ++ (("\n\n") ++ line)).data
        = content.data ++ (['\n', '\n'] ++ line.data) := by
      rw [String.data_append, String.data_append]
    rw [hdata]
    exact h
  have h2 := etnIncludes (content ++ (("\n\n") ++ line)) line.data hinc hnw
  simp only [generateMarkdown, strIncludes]
  rw [String.data_append]
  exact listIncludesAppendRight _ _ _ h2

/-! ## Claim theorem for attachment download keying -/

/-- C6: the attachment download is keyed only by the sanitized local filename:
for a note with one attachment carrying a remote path, if a file of that name
already exists under the attachment root no download occurs and the file set
is unchanged; otherwise (when the download succeeds) exactly that remote path
is downloaded and the file is written; and materializing the same note twice
triggers exactly one download across the two runs. -/
theorem claimC6 : ∀ (ctx : VaultCtx) (a : VAttachment) (note : VNote)
    (bins : List String),
    a.path ≠ "" → note.attachments = [a] →
    ((buildAttachmentPath ctx.attachmentFolder (nameForAttachment a) ∈ bins →
      (processAttachments ctx note bins).downloads = [] ∧
      (processAttachments ctx note bins).bins = bins) ∧
     (buildAttachmentPath ctx.attachmentFolder (nameForAttachment a) ∉ bins →
      ctx.dlOk a.path = true →
      (processAttachments ctx note bins).downloads = [a.path] ∧
      (processAttachments ctx note bins).bins =
        bins ++ [buildAttachmentPath ctx.attachmentFolder (nameForAttachment a)]) ∧
     (buildAttachmentPath ctx.attachmentFolder (nameForAttachment a) ∉ bins →
      ctx.dlOk a.path = true →
      (processAttachments ctx note bins).downloads.length +
        (processAttachments ctx note
          (processAttachments ctx note bins).bins).downloads.length = 1)) := by
  intro ctx a note bins hpath hatt
  have hsing := paSingleton ctx note a bins hatt
  refine ⟨?_, ?_, ?_⟩
  · intro hmem
    rw [hsing, paGoExists ctx a [] [] [] note.content bins [] hpath hmem]
    simp only [paGo]
    exact ⟨by simp, by simp⟩
  · intro hmem hdl
    rw [hsing, paGoDownload ctx a [] [] [] note.content bins [] hpath hmem hdl]
    simp only [paGo]
    exact ⟨by simp, by simp⟩
  · intro hmem hdl
    rw [hsing, paGoDownload ctx a [] [] [] note.content bins [] hpath hmem hdl]
    simp only [paGo]
    rw [paSingleton ctx note a
      (bins ++ [buildAttachmentPath ctx.attachmentFolder (nameForAttachment a)]) hatt]
    rw [paGoExists ctx a [] [] [] note.content
      (bins ++ [buildAttachmentPath ctx.attachmentFolder (nameForAttachment a)]) []
      hpath (List.mem_append_right bins (by simp))]
    simp only [paGo]
    simp

theorem claimC6Witness :
    (processAttachments
        ⟨"", "", "", false, id, fun _ => true, fun _ => false, fun v _ => v,
          false, none⟩
        ⟨7, "", "hello", some 0, "c", "u", [], [⟨1, "img.png", "/img.png"⟩]⟩
        []).downloads = [("/img.png")] ∧
    (processAttachments
        ⟨"", "", "", false, id, fun _ => true, fun _ => false, fun v _ => v,
          false, none⟩
        ⟨7, "", "hello", some 0, "c", "u", [], [⟨1, "img.png", "/img.png"⟩]⟩
        []).bins =
      [] ++ [buildAttachmentPath "" (nameForAttachment ⟨1, "img.png", "/img.png"⟩)] ∧
    (processAttachments
        ⟨"", "", "", false, id, fun _ => true, fun _ => false, fun v _ => v,
          false, none⟩
        ⟨7, "", "hello", some 0, "c", "u", [], [⟨1, "img.png", "/img.png"⟩]⟩
        []).downloads.length +
      (processAttachments
        ⟨"", "", "", false, id, fun _ => true, fun _ => false, fun v _ => v,
          false, none⟩
        ⟨7, "", "hello", some 0, "c", "u", [], [⟨1, "img.png", "/img.png"⟩]⟩
        (processAttachments
          ⟨"", "", "", false, id, fun _ => true, fun _ => false, fun v _ => v,
            false, none⟩
          ⟨7, "", "hello", some 0, "c", "u", [], [⟨1, "img.png", "/img.png"⟩]⟩
          []).bins).downloads.length = 1 ∧
    (processAttachments
        ⟨"", "", "", false, id, fun _ => true, fun _ => false, fun v _ => v,
          false, none⟩
        ⟨7, "", "hello", some 0, "c", "u", [], [⟨1, "img.png", "/img.png"⟩]⟩
        [("img.png")]).downloads = [] := by
  have h := claimC6
    ⟨"", "", "", false, id, fun _ => true, fun _ => false, fun v _ => v,
      false, none⟩
    ⟨1, "img.png", "/img.png"⟩
    ⟨7, "", "hello", some 0, "c", "u", [], [⟨1, "img.png", "/img.png"⟩]⟩
    [] (by decide) rfl
  have h2 := claimC6
    ⟨"", "", "", false, id, fun _ => true, fun _ => false, fun v _ => v,
      false, none⟩
    ⟨1, "img.png", "/img.png"⟩
    ⟨7, "", "hello", some 0, "c", "u", [], [⟨1, "img.png", "/img.png"⟩]⟩
    [("img.png")] (by decide) rfl
  exact ⟨(h.2.1 (by decide) rfl).1, (h.2.1 (by decide) rfl).2,
    h.2.2 (by decide) rfl, (h2.1 (by decide)).1⟩

/-! ## Claim theorem for per-attachment degradation -/

/-- C7: per-attachment problems never abort a note's materialization: for a
note with one attachment, a missing remote path contributes the
missing-path warning line, a failed download contributes the
download-failed warning line, and an attachment absent from the rewritten
content contributes a trailing embed reference; in all three cases the note
file is still written and the emitted markdown visibly contains that line. -/
theorem claimC7 : ∀ (ctx : VaultCtx) (a : VAttachment) (note : VNote)
    (existing : Option String) (fs : Fs),
    note.attachments = [a] →
    (∀ c ∈ (nameForAttachment a).data, c ≠ '\r' ∧ c ≠ '\n') →
    ((a.path = "" →
      (processAttachments ctx note fs.bins).refs =
        [warnMissingPath (nameForAttachment a)] ∧
      lookupText (saveNote ctx existing note fs).2.texts
          (saveNote ctx existing note fs).1.filePath =
        some (generateMarkdown ctx note (processAttachments ctx note fs.bins).block
          (processAttachments ctx note fs.bins).stored
          (processAttachments ctx note fs.bins).content) ∧
      strIncludes
        (generateMarkdown ctx note (processAttachments ctx note fs.bins).block
          (processAttachments ctx note fs.bins).stored
          (processAttachments ctx note fs.bins).content)
        (warnMissingPath (nameForAttachment a)) = true) ∧
     (a.path ≠ "" →
      buildAttachmentPath ctx.attachmentFolder (nameForAttachment a) ∉ fs.bins →
      ctx.dlOk a.path = false →
      (processAttachments ctx note fs.bins).refs =
        [warnDownloadFailed (nameForAttachment a)] ∧
      lookupText (saveNote ctx existing note fs).2.texts
          (saveNote ctx existing note fs).1.filePath =
        some (generateMarkdown ctx note (processAttachments ctx note fs.bins).block
          (processAttachments ctx note fs.bins).stored
          (processAttachments ctx note fs.bins).content) ∧
      strIncludes
        (generateMarkdown ctx note (processAttachments ctx note fs.bins).block
          (processAttachments ctx note fs.bins).stored
          (processAttachments ctx note fs.bins).content)
        (warnDownloadFailed (nameForAttachment a)) = true) ∧
     (a.path ≠ "" →
      buildAttachmentPath ctx.attachmentFolder (nameForAttachment a) ∈ fs.bins →
      strIncludes (processAttachments ctx note fs.bins).content
        (nameForAttachment a) = false →
      (processAttachments ctx note fs.bins).refs =
        [embedRef (nameForAttachment a)] ∧
      lookupText (saveNote ctx existing note fs).2.texts
          (saveNote ctx existing note fs).1.filePath =
        some (generateMarkdown ctx note (processAttachments ctx note fs.bins).block
          (processAttachments ctx note fs.bins).stored
          (processAttachments ctx note fs.bins).content) ∧
      strIncludes
        (generateMarkdown ctx note (processAttachments ctx note fs.bins).block
          (processAttachments ctx note fs.bins).stored
          (processAttachments ctx note fs.bins).content)
        (embedRef (nameForAttachment a)) = true)) := by
  intro ctx a note existing fs hatt hname
  have hsing := paSingleton ctx note a fs.bins hatt
  have hw : lookupText (saveNote ctx existing note fs).2.texts
      (saveNote ctx existing note fs).1.filePath =
      some (generateMarkdown ctx note (processAttachments ctx note fs.bins).block
        (processAttachments ctx note fs.bins).stored
        (processAttachments ctx note fs.bins).content) := by
    simp only [saveNote]
    exact lookupUpsert _ _ _
  refine ⟨?_, ?_, ?_⟩
  · intro hpath
    have hpa : processAttachments ctx note fs.bins =
        ⟨("\n\n") ++ warnMissingPath (nameForAttachment a), [], note.content,
         fs.bins, [], [warnMissingPath (nameForAttachment a)]⟩ := by
      rw [hsing, paGoMissing ctx a [] [] [] note.content fs.bins [] hpath]
      simp only [paGo]
      simp [joinSep]
    refine ⟨by rw [hpa], hw, ?_⟩
    rw [hpa]
    apply mdIncludesLine
    · intro c hc
      simp only [warnMissingPath, String.data_append] at hc
      rcases List.mem_append.mp hc with hpre | hnm
      · exact (by decide :
          ∀ c ∈ ("> [!warning] Attachment missing path: ").data,
            c ≠ '\r' ∧ c ≠ '\n') c hpre
      · exact hname c hnm
    · refine ⟨'>', ?_, by decide⟩
      simp only [warnMissingPath, String.data_append]
      exact List.mem_append_left _ (by decide)
  · intro hpath hmem hdl
    have hpa : processAttachments ctx note fs.bins =
        ⟨("\n\n") ++ warnDownloadFailed (nameForAttachment a), [], note.content,
         fs.bins, [], [warnDownloadFailed (nameForAttachment a)]⟩ := by
      rw [hsing, paGoDlFail ctx a [] [] [] note.content fs.bins [] hpath hmem hdl]
      simp only [paGo]
      simp [joinSep]
    refine ⟨by rw [hpa], hw, ?_⟩
    rw [hpa]
    apply mdIncludesLine
    · intro c hc
      simp only [warnDownloadFailed, String.data_append] at hc
      rcases List.mem_append.mp hc with hpre | hnm
      · exact (by decide :
          ∀ c ∈ ("> [!warning] Attachment download failed: ").data,
            c ≠ '\r' ∧ c ≠ '\n') c hpre
      · exact hname c hnm
    · refine ⟨'>', ?_, by decide⟩
      simp only [warnDownloadFailed, String.data_append]
      exact List.mem_append_left _ (by decide)
  · intro hpath hmem habs
    have hpaE := paGoExists ctx a [] [] [] note.content fs.bins [] hpath hmem
    by_cases hs : strIncludes
        (replaceAttachmentReference
          (replaceAttachmentReference note.content (ctx.resolveUrl a.path)
            (nameForAttachment a))
          a.path (nameForAttachment a))
        (nameForAttachment a) = true
    · exfalso
      have hcontent : (processAttachments ctx note fs.bins).content =
          replaceAttachmentReference
            (replaceAttachmentReference note.content (ctx.resolveUrl a.path)
              (nameForAttachment a))
            a.path (nameForAttachment a) := by
        rw [hsing, hpaE]
        simp only [paGo]
      rw [hcontent] at habs
      rw [habs] at hs
      exact Bool.noConfusion hs
    · have hpa : processAttachments ctx note fs.bins =
          ⟨("\n\n") ++ embedRef (nameForAttachment a), [nameForAttachment a],
           replaceAttachmentReference
             (replaceAttachmentReference note.content (ctx.resolveUrl a.path)
               (nameForAttachment a))
             a.path (nameForAttachment a),
           fs.bins, [], [embedRef (nameForAttachment a)]⟩ := by
        rw [hsing, hpaE, if_neg hs]
        simp only [paGo]
        simp [joinSep]
      refine ⟨by rw [hpa], hw, ?_⟩
      rw [hpa]
      apply mdIncludesLine
      · intro c hc
        simp only [embedRef, String.data_append] at hc
        rcases List.mem_append.mp hc with hpre | hbr
        · rcases List.mem_append.mp hpre with hbr2 | hnm
          · exact (by decide : ∀ c ∈ ("![[").data, c ≠ '\r' ∧ c ≠ '\n') c hbr2
          · exact hname c hnm
        · exact (by decide : ∀ c ∈ ("]]").data, c ≠ '\r' ∧ c ≠ '\n') c hbr
      · refine ⟨'!', ?_, by decide⟩
        simp only [embedRef, String.data_append]
        exact List.mem_append_left _ (List.mem_append_left _ (by decide))

theorem claimC7Witness :
    (processAttachments
        ⟨"", "", "", false, id, fun _ => true, fun _ => false, fun v _ => v,
          false, none⟩
        ⟨7, "", "hello", some 0, "c", "u", [], [⟨1, "img.png", ""⟩]⟩
        []).refs = [warnMissingPath (nameForAttachment ⟨1, "img.png", ""⟩)] ∧
    lookupText
        (saveNote
          ⟨"", "", "", false, id, fun _ => true, fun _ => false, fun v _ => v,
            false, none⟩
          none
          ⟨7, "", "hello", some 0, "c", "u", [], [⟨1, "img.png", ""⟩]⟩
          (Fs.mk [] [])).2.texts
        (saveNote
          ⟨"", "", "", false, id, fun _ => true, fun _ => false, fun v _ => v,
            false, none⟩
          none
          ⟨7, "", "hello", some 0, "c", "u", [], [⟨1, "img.png", ""⟩]⟩
          (Fs.mk [] [])).1.filePath =
      some (generateMarkdown
        ⟨"", "", "", false, id, fun _ => true, fun _ => false, fun v _ => v,
          false, none⟩
        ⟨7, "", "hello", some 0, "c", "u", [], [⟨1, "img.png", ""⟩]⟩
        (processAttachments
          ⟨"", "", "", false, id, fun _ => true, fun _ => false, fun v _ => v,
            false, none⟩
          ⟨7, "", "hello", some 0, "c", "u", [], [⟨1, "img.png", ""⟩]⟩ []).block
        (processAttachments
          ⟨"", "", "", false, id, fun _ => true, fun _ => false, fun v _ => v,
            false, none⟩
          ⟨7, "", "hello", some 0, "c", "u", [], [⟨1, "img.png", ""⟩]⟩ []).stored
        (processAttachments
          ⟨"", "", "", false, id, fun _ => true, fun _ => false, fun v _ => v,
            false, none⟩
          ⟨7, "", "hello", some 0, "c", "u", [], [⟨1, "img.png", ""⟩]⟩ []).content) ∧
    (processAttachments
        ⟨"", "", "", false, id, fun _ => false, fun _ => false, fun v _ => v,
          false, none⟩
        ⟨7, "", "hello", some 0, "c", "u", [], [⟨1, "img.png", "/img.png"⟩]⟩
        []).refs =
      [warnDownloadFailed (nameForAttachment ⟨1, "img.png", "/img.png"⟩)] ∧
    (processAttachments
        ⟨"", "", "", false, id, fun _ => true, fun _ => false, fun v _ => v,
          false, none⟩
        ⟨7, "", "hello", some 0, "c", "u", [], [⟨1, "img.png", "/img.png"⟩]⟩
        [("img.png")]).refs =
      [embedRef (nameForAttachment ⟨1, "img.png", "/img.png"⟩)] := by
  have h1 := claimC7
    ⟨"", "", "", false, id, fun _ => true, fun _ => false, fun v _ => v,
      false, none⟩
    ⟨1, "img.png", ""⟩
    ⟨7, "", "hello", some 0, "c", "u", [], [⟨1, "img.png", ""⟩]⟩
    none (Fs.mk [] []) rfl (by decide)
  have h2 := claimC7
    ⟨"", "", "", false, id, fun _ => false, fun _ => false, fun v _ => v,
      false, none⟩
    ⟨1, "img.png", "/img.png"⟩
    ⟨7, "", "hello", some 0, "c", "u", [], [⟨1, "img.png", "/img.png"⟩]⟩
    none (Fs.mk [] []) rfl (by decide)
  have h3 := claimC7
    ⟨"", "", "", false, id, fun _ => true, fun _ => false, fun v _ => v,
      false, none⟩
    ⟨1, "img.png", "/img.png"⟩
    ⟨7, "", "hello", some 0, "c", "u", [], [⟨1, "img.png", "/img.png"⟩]⟩
    none (Fs.mk [("img.png")] []) rfl (by decide)
  exact ⟨(h1.1 rfl).1, (h1.1 rfl).2.1,
    (h2.2.1 (by decide) (by decide) rfl).1,
    (h3.2.2 (by decide) (by decide) (by decide)).1⟩

/-! ## Claim theorems for body normalization -/

/-- C8 counterexample: a body already ending in two newlines is kept
unchanged by `ensureTrailingNewline`, so the emitted body ends with more
than one newline, contradicting the claimed normalization to exactly one
trailing newline. -/
theorem claimC8Counterexample :
    ensureTrailingNewline ("a\n\n") = ("a\n\n") ∧
    strEndsWith (ensureTrailingNewline ("a\n\n")) ("\n\n") = true ∧
    strEndsWith
      (generateMarkdown
        ⟨"", "", "", false, id, fun _ => true, fun _ => false, fun v _ => v,
          false, none⟩
        ⟨7, "", "a\n\n", some 0, "c", "u", [], []⟩ "" [] ("a\n\n"))
      ("\n\n") = true := by
  refine ⟨by decide, by decide, ?_⟩
  decide

/-- C8 (amended): the emitted body is normalized to **at least** one
trailing newline: every generated markdown document ends with a newline; a
whitespace-only body becomes a single newline; a body already ending in a
newline (after CRLF normalization) is kept as-is, so it may end with several
newlines; a non-blank body with no trailing newline gets exactly one
appended. -/
theorem claimC8Amended : ∀ (ctx : VaultCtx) (note : VNote) (block : String)
    (atts : List String) (content : String),
    strEndsWith (generateMarkdown ctx note block atts content) ("\n") = true ∧
    strEndsWith (ensureTrailingNewline (content ++ block)) ("\n") = true ∧
    (myTrim (String.mk (replCRLF (content ++ block).data)) = "" →
      ensureTrailingNewline (content ++ block) = ("\n")) ∧
    (myTrim (String.mk (replCRLF (content ++ block).data)) ≠ "" →
      strEndsWith (String.mk (replCRLF (content ++ block).data)) ("\n") = true →
      ensureTrailingNewline (content ++ block) =
        String.mk (replCRLF (content ++ block).data)) ∧
    (myTrim (String.mk (replCRLF (content ++ block).data)) ≠ "" →
      strEndsWith (String.mk (replCRLF (content ++ block).data)) ("\n") = false →
      ensureTrailingNewline (content ++ block) =
        String.mk (replCRLF (content ++ block).data) ++ ("\n")) := by
  intro ctx note block atts content
  refine ⟨?_, etnEndsWith _, ?_, ?_, ?_⟩
  · simp only [generateMarkdown]
    exact strEndsWithAppendRight _ _ _ (etnEndsWith _)
  · intro h
    simp only [ensureTrailingNewline]
    rw [if_pos h]
  · intro h1 h2
    simp only [ensureTrailingNewline]
    rw [if_neg h1, if_pos h2]
  · intro h1 h2
    simp only [ensureTrailingNewline]
    rw [if_neg h1, if_neg (fun hh => Bool.noConfusion (h2.symm.trans hh))]

theorem claimC8AmendedWitness :
    strEndsWith
      (generateMarkdown
        ⟨"", "", "", false, id, fun _ => true, fun _ => false, fun v _ => v,
          false, none⟩
        ⟨7, "", "x", some 0, "c", "u", [], []⟩ "" [] ("x")) ("\n") = true ∧
    ensureTrailingNewline (("  ") ++ ("")) = ("\n") ∧
    ensureTrailingNewline (("a\n") ++ ("")) =
      String.mk (replCRLF ((("a\n") ++ ("")).data)) ∧
    ensureTrailingNewline (("x") ++ ("")) =
      String.mk (replCRLF ((("x") ++ ("")).data)) ++ ("\n") :=
  ⟨(claimC8Amended
      ⟨"", "", "", false, id, fun _ => true, fun _ => false, fun v _ => v,
        false, none⟩
      ⟨7, "", "x", some 0, "c", "u", [], []⟩ "" [] ("x")).1,
   (claimC8Amended
      ⟨"", "", "", false, id, fun _ => true, fun _ => false, fun v _ => v,
        false, none⟩
      ⟨7, "", "x", some 0, "c", "u", [], []⟩ ("") [] ("  ")).2.2.1 (by decide),
   (claimC8Amended
      ⟨"", "", "", false, id, fun _ => true, fun _ => false, fun v _ => v,
        false, none⟩
      ⟨7, "", "x", some 0, "c", "u", [], []⟩ ("") [] ("a\n")).2.2.2.1
     (by decide) (by decide),
   (claimC8Amended
      ⟨"", "", "", false, id, fun _ => true, fun _ => false, fun v _ => v,
        false, none⟩
      ⟨7, "", "x", some 0, "c", "u", [], []⟩ ("") [] ("x")).2.2.2.2
     (by decide) (by decide)⟩

/-! ## Frontmatter parsing lemmas -/

theorem takeWhileAppendStop : ∀ (xs : List Char) (p : Char → Bool),
    (∀ x ∈ xs, p x = true) → ∀ (c : Char), p c = false → ∀ (r : List Char),
    (xs ++ c :: r).takeWhile p = xs := by
  intro xs
  induction xs with
  | nil =>
    intro p _ c hc r
    simp [List.takeWhile_cons, hc]
  | cons x xs' ih =>
    intro p hxs c hc r
    rw [List.cons_append, List.takeWhile_cons, hxs x (by simp), if_pos rfl,
      ih p (fun y hy => hxs y (by simp [hy])) c hc r]

theorem dropAppendCons : ∀ (xs : List Char) (c : Char) (r : List Char),
    (xs ++ c :: r).drop (xs.length + 1) = r := by
  intro xs
  induction xs with
  | nil => intro c r; simp
  | cons x xs' ih =>
    intro c r
    simp only [List.cons_append, List.length_cons, List.drop_succ_cons]
    exact ih c r

theorem prefixThroughSep : ∀ (p : List Char) (c : Char), c ∉ p →
    ∀ (k r : List Char), p.isPrefixOf (k ++ c :: r) = true →
    p.isPrefixOf k = true := by
  intro p
  induction p with
  | nil => intro c _ k r _; simp [List.isPrefixOf]
  | cons a p' ih =>
    intro c hc k r h
    cases k with
    | nil =>
      simp only [List.nil_append, List.isPrefixOf, Bool.and_eq_true,
        beq_iff_eq] at h
      rw [List.mem_cons] at hc
      push_neg at hc
      exact absurd h.1.symm hc.1
    | cons b k' =>
      simp only [List.cons_append, List.isPrefixOf, Bool.and_eq_true] at h ⊢
      exact ⟨h.1, ih c (fun hm => hc (List.mem_cons_of_mem a hm)) k' r h.2⟩

theorem mapTypeNoNL (t : Option Int) : '\n' ∉ (mapType t).data := by
  unfold mapType
  split <;> decide

theorem joinSepData : ∀ (lines : List String) (t : String),
    (joinSep ("\n") (lines ++ [t])).data =
      (lines.map (fun s => s.data ++ ['\n'])).flatten ++ t.data := by
  intro lines
  induction lines with
  | nil => intro t; simp [joinSep]
  | cons x xs ih =>
    intro t
    rw [List.cons_append, joinSepCons ("\n") x _ (by simp)]
    rw [String.data_append, String.data_append, ih]
    simp [List.append_assoc]

/-- Reading keys back from a block of `key:value` lines closed by a `---`
delimiter returns exactly the keys, provided keys are nonempty, free of
colons and newlines and do not start with the delimiter, and values are
newline-free. -/
theorem fmKeysGoLines : ∀ (kvs : List (List Char × List Char)) (fuel : Nat)
    (tail : List Char),
    (∀ kv ∈ kvs, kv.1 ≠ [] ∧ (∀ c ∈ kv.1, c ≠ ':' ∧ c ≠ '\n') ∧
      '\n' ∉ kv.2 ∧ ("---").data.isPrefixOf kv.1 = false) →
    ("---").data.isPrefixOf tail = true →
    ((kvs.map (fun kv => kv.1 ++ ':' :: (kv.2 ++ ['\n']))).flatten ++ tail).length
      ≤ fuel →
    fmKeysGo fuel
        ((kvs.map (fun kv => kv.1 ++ ':' :: (kv.2 ++ ['\n']))).flatten ++ tail) =
      kvs.map (fun kv => String.mk kv.1) := by
  intro kvs
  induction kvs with
  | nil =>
    intro fuel tail _ htail hfuel
    simp only [List.map_nil, List.flatten_nil, List.nil_append] at hfuel ⊢
    cases fuel with
    | zero =>
      have ht : tail = [] := List.eq_nil_of_length_eq_zero (Nat.le_zero.mp hfuel)
      rw [ht] at htail
      exact absurd htail (by decide)
    | succ fuel' =>
      cases tail with
      | nil => exact absurd htail (by decide)
      | cons c cs =>
        simp only [fmKeysGo]
        rw [if_pos htail]
  | cons kv kvs' ih =>
    intro fuel tail hkvs htail hfuel
    obtain ⟨k, v⟩ := kv
    obtain ⟨hk1, hk2, hk3, hk4⟩ := hkvs (k, v) (by simp)
    simp only [List.map_cons, List.flatten_cons, List.append_assoc,
      List.cons_append, List.singleton_append, List.nil_append] at hfuel ⊢
    cases k with
    | nil => exact absurd rfl hk1
    | cons kc ktl =>
      cases fuel with
      | zero =>
        exfalso
        simp only [List.cons_append, List.length_append, List.length_cons] at hfuel
        omega
      | succ fuel' =>
        rw [List.cons_append]
        simp only [fmKeysGo]
        have hpre : ¬((['-', '-', '-'] : List Char).isPrefixOf
            (kc :: (ktl ++ ':' :: (v ++ '\n' ::
              ((kvs'.map (fun kv => kv.1 ++ ':' :: (kv.2 ++ ['\n']))).flatten
                ++ tail)))) = true) := by
          intro hcontra
          rw [← List.cons_append] at hcontra
          have hkpre := prefixThroughSep ['-', '-', '-'] ':' (by decide)
            (kc :: ktl) _ hcontra
          have hk4x := hk4
          rw [show ("---").data = (['-', '-', '-'] : List Char) from rfl] at hk4x
          rw [hkpre] at hk4x
          exact Bool.noConfusion hk4x
        rw [if_neg hpre]
        have hkey : List.takeWhile (fun x => decide (x ≠ ':') && decide (x ≠ '\n'))
            (kc :: (ktl ++ ':' :: (v ++ '\n' ::
              ((kvs'.map (fun kv => kv.1 ++ ':' :: (kv.2 ++ ['\n']))).flatten
                ++ tail)))) = kc :: ktl := by
          rw [← List.cons_append]
          apply takeWhileAppendStop
          · intro x hx
            obtain ⟨hx1, hx2⟩ := hk2 x hx
            simp [hx1, hx2]
          · decide
        have hlen : List.takeWhile (fun x => decide (x ≠ '\n'))
            (kc :: (ktl ++ ':' :: (v ++ '\n' ::
              ((kvs'.map (fun kv => kv.1 ++ ':' :: (kv.2 ++ ['\n']))).flatten
                ++ tail)))) = (kc :: ktl) ++ ':' :: v := by
          rw [← List.cons_append,
            show (kc :: ktl) ++ ':' :: (v ++ '\n' ::
                ((kvs'.map (fun kv => kv.1 ++ ':' :: (kv.2 ++ ['\n']))).flatten
                  ++ tail)) =
              ((kc :: ktl) ++ ':' :: v) ++ '\n' ::
                ((kvs'.map (fun kv => kv.1 ++ ':' :: (kv.2 ++ ['\n']))).flatten
                  ++ tail) by simp]
          apply takeWhileAppendStop ((kc :: ktl) ++ ':' :: v) _ ?_ '\n' (by decide) _
          intro x hx
          rcases List.mem_append.mp hx with hxk | hxcv
          · simp [(hk2 x hxk).2]
          · rcases List.mem_cons.mp hxcv with rfl | hxv
            · decide
            · have hxn : x ≠ '\n' := fun hh => hk3 (hh ▸ hxv)
              simp [hxn]
        have hdrop : (kc :: (ktl ++ ':' :: (v ++ '\n' ::
              ((kvs'.map (fun kv => kv.1 ++ ':' :: (kv.2 ++ ['\n']))).flatten
                ++ tail)))).drop (((kc :: ktl) ++ ':' :: v).length + 1) =
            (kvs'.map (fun kv => kv.1 ++ ':' :: (kv.2 ++ ['\n']))).flatten
              ++ tail := by
          rw [← List.cons_append,
            show (kc :: ktl) ++ ':' :: (v ++ '\n' ::
                ((kvs'.map (fun kv => kv.1 ++ ':' :: (kv.2 ++ ['\n']))).flatten
                  ++ tail)) =
              ((kc :: ktl) ++ ':' :: v) ++ '\n' ::
                ((kvs'.map (fun kv => kv.1 ++ ':' :: (kv.2 ++ ['\n']))).flatten
                  ++ tail) by simp]
          exact dropAppendCons _ _ _
        rw [hkey, hlen, hdrop]
        have hbound : ((kvs'.map (fun kv => kv.1 ++ ':' :: (kv.2 ++ ['\n']))).flatten
            ++ tail).length ≤ fuel' := by
          simp only [List.cons_append, List.length_append, List.length_cons] at hfuel
          simp only [List.length_append]
          omega
        rw [ih fuel' tail (fun kv hm => hkvs kv (List.mem_cons_of_mem _ hm))
          htail hbound]

/-! ## Claim theorems for the frontmatter layout -/

/-- C9 counterexample: the generated frontmatter keys are `blinkoType`,
`blinkoTypeCode` and `blinkoAttachments` — not `type`, `typeCode` and
`attachments` — and the closing delimiter is followed directly by the note
body, with no blank line in between. -/
theorem claimC9Counterexample :
    generateMarkdown
        ⟨"", "", "", false, id, fun _ => true, fun _ => false, fun v _ => v,
          false, none⟩
        ⟨7, "", "hello", some 0, "c", "u", [], []⟩ "" [] ("hello") =
      ("---\nid: 7\ndate: c\nupdated: u\nsource: blinko\nblinkoType: flash\nblinkoTypeCode: 0\nblinkoAttachments: []\n---\nhello\n") ∧
    fmKeys
      (generateMarkdown
        ⟨"", "", "", false, id, fun _ => true, fun _ => false, fun v _ => v,
          false, none⟩
        ⟨7, "", "hello", some 0, "c", "u", [], []⟩ "" [] ("hello")) =
      [("id"), ("date"), ("updated"), ("source"), ("blinkoType"),
       ("blinkoTypeCode"), ("blinkoAttachments")] ∧
    ([("blinkoType"), ("blinkoTypeCode"), ("blinkoAttachments")] ≠
      ([("type"), ("typeCode"), ("attachments")] : List String)) := by
  refine ⟨by decide, by decide, by decide⟩

/-- C9 (amended): the YAML frontmatter has exactly the keys `id`, `date`,
`updated`, `source`, `blinkoType`, `blinkoTypeCode`, `blinkoAttachments`
(plus `tags` when frontmatter tags are enabled), in that fixed order, and the
closing `---` delimiter is followed directly by the normalized note body,
with no blank line in between; the hypotheses state that the rendered field
values contain no newline. -/
theorem claimC9Amended : ∀ (ctx : VaultCtx) (note : VNote) (block : String)
    (atts : List String) (content : String),
    '\n' ∉ (toString note.id).data →
    '\n' ∉ (formatLocalTimestamp ctx note.createdAt).data →
    '\n' ∉ (formatLocalTimestamp ctx note.updatedAt).data →
    '\n' ∉ (joinSep (", ") (atts.map quoteAttachment)).data →
    '\n' ∉ (joinSep (", ") ((collectTags note.tags).map quoteTag)).data →
    '\n' ∉ (toString (typeCodeOf note.type)).data →
    (fmKeys (generateMarkdown ctx note block atts content) =
      (if ctx.includeFrontmatterTags then
        [("id"), ("date"), ("updated"), ("source"), ("blinkoType"),
         ("blinkoTypeCode"), ("blinkoAttachments"), ("tags")]
       else
        [("id"), ("date"), ("updated"), ("source"), ("blinkoType"),
         ("blinkoTypeCode"), ("blinkoAttachments")])) ∧
    (∃ fm, generateMarkdown ctx note block atts content =
        fm ++ ensureTrailingNewline (content ++ block) ∧
      strEndsWith fm ("---\n") = true) := by
  intro ctx note block atts content h1 h2 h3 h4 h5 h6
  have hv1 : '\n' ∉ ' ' :: (toString note.id).data := by
    intro hm
    rcases List.mem_cons.mp hm with he | hm2
    · exact absurd he (by decide)
    · exact h1 hm2
  have hv2 : '\n' ∉ ' ' :: (formatLocalTimestamp ctx note.createdAt).data := by
    intro hm
    rcases List.mem_cons.mp hm with he | hm2
    · exact absurd he (by decide)
    · exact h2 hm2
  have hv3 : '\n' ∉ ' ' :: (formatLocalTimestamp ctx note.updatedAt).data := by
    intro hm
    rcases List.mem_cons.mp hm with he | hm2
    · exact absurd he (by decide)
    · exact h3 hm2
  have hv5 : '\n' ∉ ' ' :: (mapType note.type).data := by
    intro hm
    rcases List.mem_cons.mp hm with he | hm2
    · exact absurd he (by decide)
    · exact mapTypeNoNL note.type hm2
  have hv6 : '\n' ∉ ' ' :: (toString (typeCodeOf note.type)).data := by
    intro hm
    rcases List.mem_cons.mp hm with he | hm2
    · exact absurd he (by decide)
    · exact h6 hm2
  have hv7 : '\n' ∉ ' ' :: ('[' ::
      ((joinSep (", ") (atts.map quoteAttachment)).data ++ [']'])) := by
    intro hm
    rcases List.mem_cons.mp hm with he | hm2
    · exact absurd he (by decide)
    rcases List.mem_cons.mp hm2 with he | hm3
    · exact absurd he (by decide)
    rcases List.mem_append.mp hm3 with hj | hbr
    · exact h4 hj
    · exact absurd hbr (by decide)
  have hv8 : '\n' ∉ ' ' :: ('[' ::
      ((joinSep (", ") ((collectTags note.tags).map quoteTag)).data ++ [']'])) := by
    intro hm
    rcases List.mem_cons.mp hm with he | hm2
    · exact absurd he (by decide)
    rcases List.mem_cons.mp hm2 with he | hm3
    · exact absurd he (by decide)
    rcases List.mem_append.mp hm3 with hj | hbr
    · exact h5 hj
    · exact absurd hbr (by decide)
  refine ⟨?_, joinSep ("\n") (frontmatterLines ctx note atts), rfl, ?_⟩
  · by_cases htags : ctx.includeFrontmatterTags = true
    · rw [if_pos htags]
      have hfl : frontmatterLines ctx note atts =
          [("---"),
           ("id: ") ++ toString note.id,
           ("date: ") ++ formatLocalTimestamp ctx note.createdAt,
           ("updated: ") ++ formatLocalTimestamp ctx note.updatedAt,
           ("source: blinko"),
           ("blinkoType: ") ++ mapType note.type,
           ("blinkoTypeCode: ") ++ toString (typeCodeOf note.type),
           ("blinkoAttachments: [") ++ joinSep (", ") (atts.map quoteAttachment) ++ ("]"),
           ("tags: [") ++ joinSep (", ") ((collectTags note.tags).map quoteTag) ++ ("]")] ++ [("---"), ("")] := by
        simp only [frontmatterLines]
        rw [if_pos htags]
        simp
      have hmd : (generateMarkdown ctx note block atts content).data =
          ("---\n").data ++
            ((([(("id").data, ' ' :: (toString note.id).data),
           (("date").data, ' ' :: (formatLocalTimestamp ctx note.createdAt).data),
           (("updated").data, ' ' :: (formatLocalTimestamp ctx note.updatedAt).data),
           (("source").data, ' ' :: ("blinko").data),
           (("blinkoType").data, ' ' :: (mapType note.type).data),
           (("blinkoTypeCode").data, ' ' :: (toString (typeCodeOf note.type)).data),
           (("blinkoAttachments").data, ' ' :: ('[' :: ((joinSep (", ") (atts.map quoteAttachment)).data ++ [']']))),
           (("tags").data, ' ' :: ('[' :: ((joinSep (", ") ((collectTags note.tags).map quoteTag)).data ++ [']'])))]).map
          (fun kv => kv.1 ++ ':' :: (kv.2 ++ ['\n']))).flatten ++
              (("---").data ++ ('\n' :: (ensureTrailingNewline (content ++ block)).data))) := by
        simp only [generateMarkdown]
        rw [String.data_append, hfl,
          show ([("---"),
           ("id: ") ++ toString note.id,
           ("date: ") ++ formatLocalTimestamp ctx note.createdAt,
           ("updated: ") ++ formatLocalTimestamp ctx note.updatedAt,
           ("source: blinko"),
           ("blinkoType: ") ++ mapType note.type,
           ("blinkoTypeCode: ") ++ toString (typeCodeOf note.type),
           ("blinkoAttachments: [") ++ joinSep (", ") (atts.map quoteAttachment) ++ ("]"),
           ("tags: [") ++ joinSep (", ") ((collectTags note.tags).map quoteTag) ++ ("]")] ++ [("---"), ("")] : List String) =
            ([("---"),
           ("id: ") ++ toString note.id,
           ("date: ") ++ formatLocalTimestamp ctx note.createdAt,
           ("updated: ") ++ formatLocalTimestamp ctx note.updatedAt,
           ("source: blinko"),
           ("blinkoType: ") ++ mapType note.type,
           ("blinkoTypeCode: ") ++ toString (typeCodeOf note.type),
           ("blinkoAttachments: [") ++ joinSep (", ") (atts.map quoteAttachment) ++ ("]"),
           ("tags: [") ++ joinSep (", ") ((collectTags note.tags).map quoteTag) ++ ("]")] ++ [("---")]) ++ [("")] by simp,
          joinSepData]
        simp only [List.map_append, List.map_cons, List.map_nil,
          List.flatten_append, List.flatten_cons, List.flatten_nil,
          String.data_append, List.append_assoc, List.cons_append,
          List.singleton_append, List.nil_append, List.append_nil]
      have hkvs : ∀ kv ∈ ([(("id").data, ' ' :: (toString note.id).data),
           (("date").data, ' ' :: (formatLocalTimestamp ctx note.createdAt).data),
           (("updated").data, ' ' :: (formatLocalTimestamp ctx note.updatedAt).data),
           (("source").data, ' ' :: ("blinko").data),
           (("blinkoType").data, ' ' :: (mapType note.type).data),
           (("blinkoTypeCode").data, ' ' :: (toString (typeCodeOf note.type)).data),
           (("blinkoAttachments").data, ' ' :: ('[' :: ((joinSep (", ") (atts.map quoteAttachment)).data ++ [']']))),
           (("tags").data, ' ' :: ('[' :: ((joinSep (", ") ((collectTags note.tags).map quoteTag)).data ++ [']'])))] : List (List Char × List Char)),
          kv.1 ≠ [] ∧ (∀ c ∈ kv.1, c ≠ ':' ∧ c ≠ '\n') ∧ '\n' ∉ kv.2 ∧
            ("---").data.isPrefixOf kv.1 = false := by
        intro kv hkv
        simp only [List.mem_cons, List.not_mem_nil, or_false] at hkv
        rcases hkv with rfl | rfl | rfl | rfl | rfl | rfl | rfl | rfl
        · exact ⟨(by decide : (("id").data : List Char) ≠ []),
            (by decide : ∀ c ∈ ("id").data, c ≠ ':' ∧ c ≠ '\n'),
            hv1,
            (by decide : ("---").data.isPrefixOf (("id").data) = false)⟩
        · exact ⟨(by decide : (("date").data : List Char) ≠ []),
            (by decide : ∀ c ∈ ("date").data, c ≠ ':' ∧ c ≠ '\n'),
            hv2,
            (by decide : ("---").data.isPrefixOf (("date").data) = false)⟩
        · exact ⟨(by decide : (("updated").data : List Char) ≠ []),
            (by decide : ∀ c ∈ ("updated").data, c ≠ ':' ∧ c ≠ '\n'),
            hv3,
            (by decide : ("---").data.isPrefixOf (("updated").data) = false)⟩
        · exact ⟨(by decide : (("source").data : List Char) ≠ []),
            (by decide : ∀ c ∈ ("source").data, c ≠ ':' ∧ c ≠ '\n'),
            (by decide : '\n' ∉ ' ' :: (("blinko")).data),
            (by decide : ("---").data.isPrefixOf (("source").data) = false)⟩
        · exact ⟨(by decide : (("blinkoType").data : List Char) ≠ []),
            (by decide : ∀ c ∈ ("blinkoType").data, c ≠ ':' ∧ c ≠ '\n'),
            hv5,
            (by decide : ("---").data.isPrefixOf (("blinkoType").data) = false)⟩
        · exact ⟨(by decide : (("blinkoTypeCode").data : List Char) ≠ []),
            (by decide : ∀ c ∈ ("blinkoTypeCode").data, c ≠ ':' ∧ c ≠ '\n'),
            hv6,
            (by decide : ("---").data.isPrefixOf (("blinkoTypeCode").data) = false)⟩
        · exact ⟨(by decide : (("blinkoAttachments").data : List Char) ≠ []),
            (by decide : ∀ c ∈ ("blinkoAttachments").data, c ≠ ':' ∧ c ≠ '\n'),
            hv7,
            (by decide : ("---").data.isPrefixOf (("blinkoAttachments").data) = false)⟩
        · exact ⟨(by decide : (("tags").data : List Char) ≠ []),
            (by decide : ∀ c ∈ ("tags").data, c ≠ ':' ∧ c ≠ '\n'),
            hv8,
            (by decide : ("---").data.isPrefixOf (("tags").data) = false)⟩
      have hpre4 : ("---\n").data.isPrefixOf
          (generateMarkdown ctx note block atts content).data = true := by
        rw [hmd]
        exact isPrefixOfSelfAppend _ _
      have hdrop4 : (generateMarkdown ctx note block atts content).data.drop 4 =
          (([(("id").data, ' ' :: (toString note.id).data),
           (("date").data, ' ' :: (formatLocalTimestamp ctx note.createdAt).data),
           (("updated").data, ' ' :: (formatLocalTimestamp ctx note.updatedAt).data),
           (("source").data, ' ' :: ("blinko").data),
           (("blinkoType").data, ' ' :: (mapType note.type).data),
           (("blinkoTypeCode").data, ' ' :: (toString (typeCodeOf note.type)).data),
           (("blinkoAttachments").data, ' ' :: ('[' :: ((joinSep (", ") (atts.map quoteAttachment)).data ++ [']']))),
           (("tags").data, ' ' :: ('[' :: ((joinSep (", ") ((collectTags note.tags).map quoteTag)).data ++ [']'])))]).map
          (fun kv => kv.1 ++ ':' :: (kv.2 ++ ['\n']))).flatten ++
            (("---").data ++ ('\n' :: (ensureTrailingNewline (content ++ block)).data)) := by
        rw [hmd, show (4 : Nat) = (("---\n").data).length from rfl, List.drop_left]
      have hbound : ((([(("id").data, ' ' :: (toString note.id).data),
           (("date").data, ' ' :: (formatLocalTimestamp ctx note.createdAt).data),
           (("updated").data, ' ' :: (formatLocalTimestamp ctx note.updatedAt).data),
           (("source").data, ' ' :: ("blinko").data),
           (("blinkoType").data, ' ' :: (mapType note.type).data),
           (("blinkoTypeCode").data, ' ' :: (toString (typeCodeOf note.type)).data),
           (("blinkoAttachments").data, ' ' :: ('[' :: ((joinSep (", ") (atts.map quoteAttachment)).data ++ [']']))),
           (("tags").data, ' ' :: ('[' :: ((joinSep (", ") ((collectTags note.tags).map quoteTag)).data ++ [']'])))]).map
          (fun kv => kv.1 ++ ':' :: (kv.2 ++ ['\n']))).flatten ++
            (("---").data ++ ('\n' :: (ensureTrailingNewline (content ++ block)).data))).length ≤
          (generateMarkdown ctx note block atts content).data.length := by
        rw [hmd]
        simp only [List.length_append, List.length_cons]
        omega
      simp only [fmKeys]
      rw [if_pos hpre4, hdrop4,
        fmKeysGoLines _ ((generateMarkdown ctx note block atts content).data.length)
          _ hkvs (isPrefixOfSelfAppend _ _) hbound]
      rfl
    · rw [if_neg htags]
      have hfl : frontmatterLines ctx note atts =
          [("---"),
           ("id: ") ++ toString note.id,
           ("date: ") ++ formatLocalTimestamp ctx note.createdAt,
           ("updated: ") ++ formatLocalTimestamp ctx note.updatedAt,
           ("source: blinko"),
           ("blinkoType: ") ++ mapType note.type,
           ("blinkoTypeCode: ") ++ toString (typeCodeOf note.type),
           ("blinkoAttachments: [") ++ joinSep (", ") (atts.map quoteAttachment) ++ ("]")] ++ [("---"), ("")] := by
        simp only [frontmatterLines]
        rw [if_neg htags]
      have hmd : (generateMarkdown ctx note block atts content).data =
          ("---\n").data ++
            ((([(("id").data, ' ' :: (toString note.id).data),
           (("date").data, ' ' :: (formatLocalTimestamp ctx note.createdAt).data),
           (("updated").data, ' ' :: (formatLocalTimestamp ctx note.updatedAt).data),
           (("source").data, ' ' :: ("blinko").data),
           (("blinkoType").data, ' ' :: (mapType note.type).data),
           (("blinkoTypeCode").data, ' ' :: (toString (typeCodeOf note.type)).data),
           (("blinkoAttachments").data, ' ' :: ('[' :: ((joinSep (", ") (atts.map quoteAttachment)).data ++ [']'])))]).map
          (fun kv => kv.1 ++ ':' :: (kv.2 ++ ['\n']))).flatten ++
              (("---").data ++ ('\n' :: (ensureTrailingNewline (content ++ block)).data))) := by
        simp only [generateMarkdown]
        rw [String.data_append, hfl,
          show ([("---"),
           ("id: ") ++ toString note.id,
           ("date: ") ++ formatLocalTimestamp ctx note.createdAt,
           ("updated: ") ++ formatLocalTimestamp ctx note.updatedAt,
           ("source: blinko"),
           ("blinkoType: ") ++ mapType note.type,
           ("blinkoTypeCode: ") ++ toString (typeCodeOf note.type),
           ("blinkoAttachments: [") ++ joinSep (", ") (atts.map quoteAttachment) ++ ("]")] ++ [("---"), ("")] : List String) =
            ([("---"),
           ("id: ") ++ toString note.id,
           ("date: ") ++ formatLocalTimestamp ctx note.createdAt,
           ("updated: ") ++ formatLocalTimestamp ctx note.updatedAt,
           ("source: blinko"),
           ("blinkoType: ") ++ mapType note.type,
           ("blinkoTypeCode: ") ++ toString (typeCodeOf note.type),
           ("blinkoAttachments: [") ++ joinSep (", ") (atts.map quoteAttachment) ++ ("]")] ++ [("---")]) ++ [("")] by simp,
          joinSepData]
        simp only [List.map_append, List.map_cons, List.map_nil,
          List.flatten_append, List.flatten_cons, List.flatten_nil,
          String.data_append, List.append_assoc, List.cons_append,
          List.singleton_append, List.nil_append, List.append_nil]
      have hkvs : ∀ kv ∈ ([(("id").data, ' ' :: (toString note.id).data),
           (("date").data, ' ' :: (formatLocalTimestamp ctx note.createdAt).data),
           (("updated").data, ' ' :: (formatLocalTimestamp ctx note.updatedAt).data),
           (("source").data, ' ' :: ("blinko").data),
           (("blinkoType").data, ' ' :: (mapType note.type).data),
           (("blinkoTypeCode").data, ' ' :: (toString (typeCodeOf note.type)).data),
           (("blinkoAttachments").data, ' ' :: ('[' :: ((joinSep (", ") (atts.map quoteAttachment)).data ++ [']'])))] : List (List Char × List Char)),
          kv.1 ≠ [] ∧ (∀ c ∈ kv.1, c ≠ ':' ∧ c ≠ '\n') ∧ '\n' ∉ kv.2 ∧
            ("---").data.isPrefixOf kv.1 = false := by
        intro kv hkv
        simp only [List.mem_cons, List.not_mem_nil, or_false] at hkv
        rcases hkv with rfl | rfl | rfl | rfl | rfl | rfl | rfl
        · exact ⟨(by decide : (("id").data : List Char) ≠ []),
            (by decide : ∀ c ∈ ("id").data, c ≠ ':' ∧ c ≠ '\n'),
            hv1,
            (by decide : ("---").data.isPrefixOf (("id").data) = false)⟩
        · exact ⟨(by decide : (("date").data : List Char) ≠ []),
            (by decide : ∀ c ∈ ("date").data, c ≠ ':' ∧ c ≠ '\n'),
            hv2,
            (by decide : ("---").data.isPrefixOf (("date").data) = false)⟩
        · exact ⟨(by decide : (("updated").data : List Char) ≠ []),
            (by decide : ∀ c ∈ ("updated").data, c ≠ ':' ∧ c ≠ '\n'),
            hv3,
            (by decide : ("---").data.isPrefixOf (("updated").data) = false)⟩
        · exact ⟨(by decide : (("source").data : List Char) ≠ []),
            (by decide : ∀ c ∈ ("source").data, c ≠ ':' ∧ c ≠ '\n'),
            (by decide : '\n' ∉ ' ' :: (("blinko")).data),
            (by decide : ("---").data.isPrefixOf (("source").data) = false)⟩
        · exact ⟨(by decide : (("blinkoType").data : List Char) ≠ []),
            (by decide : ∀ c ∈ ("blinkoType").data, c ≠ ':' ∧ c ≠ '\n'),
            hv5,
            (by decide : ("---").data.isPrefixOf (("blinkoType").data) = false)⟩
        · exact ⟨(by decide : (("blinkoTypeCode").data : List Char) ≠ []),
            (by decide : ∀ c ∈ ("blinkoTypeCode").data, c ≠ ':' ∧ c ≠ '\n'),
            hv6,
            (by decide : ("---").data.isPrefixOf (("blinkoTypeCode").data) = false)⟩
        · exact ⟨(by decide : (("blinkoAttachments").data : List Char) ≠ []),
            (by decide : ∀ c ∈ ("blinkoAttachments").data, c ≠ ':' ∧ c ≠ '\n'),
            hv7,
            (by decide : ("---").data.isPrefixOf (("blinkoAttachments").data) = false)⟩
      have hpre4 : ("---\n").data.isPrefixOf
          (generateMarkdown ctx note block atts content).data = true := by
        rw [hmd]
        exact isPrefixOfSelfAppend _ _
      have hdrop4 : (generateMarkdown ctx note block atts content).data.drop 4 =
          (([(("id").data, ' ' :: (toString note.id).data),
           (("date").data, ' ' :: (formatLocalTimestamp ctx note.createdAt).data),
           (("updated").data, ' ' :: (formatLocalTimestamp ctx note.updatedAt).data),
           (("source").data, ' ' :: ("blinko").data),
           (("blinkoType").data, ' ' :: (mapType note.type).data),
           (("blinkoTypeCode").data, ' ' :: (toString (typeCodeOf note.type)).data),
           (("blinkoAttachments").data, ' ' :: ('[' :: ((joinSep (", ") (atts.map quoteAttachment)).data ++ [']'])))]).map
          (fun kv => kv.1 ++ ':' :: (kv.2 ++ ['\n']))).flatten ++
            (("---").data ++ ('\n' :: (ensureTrailingNewline (content ++ block)).data)) := by
        rw [hmd, show (4 : Nat) = (("---\n").data).length from rfl, List.drop_left]
      have hbound : ((([(("id").data, ' ' :: (toString note.id).data),
           (("date").data, ' ' :: (formatLocalTimestamp ctx note.createdAt).data),
           (("updated").data, ' ' :: (formatLocalTimestamp ctx note.updatedAt).data),
           (("source").data, ' ' :: ("blinko").data),
           (("blinkoType").data, ' ' :: (mapType note.type).data),
           (("blinkoTypeCode").data, ' ' :: (toString (typeCodeOf note.type)).data),
           (("blinkoAttachments").data, ' ' :: ('[' :: ((joinSep (", ") (atts.map quoteAttachment)).data ++ [']'])))]).map
          (fun kv => kv.1 ++ ':' :: (kv.2 ++ ['\n']))).flatten ++
            (("---").data ++ ('\n' :: (ensureTrailingNewline (content ++ block)).data))).length ≤
          (generateMarkdown ctx note block atts content).data.length := by
        rw [hmd]
        simp only [List.length_append, List.length_cons]
        omega
      simp only [fmKeys]
      rw [if_pos hpre4, hdrop4,
        fmKeysGoLines _ ((generateMarkdown ctx note block atts content).data.length)
          _ hkvs (isPrefixOfSelfAppend _ _) hbound]
      rfl
  · exact joinSepClosing _

theorem claimC9AmendedWitness :
    fmKeys
      (generateMarkdown
        ⟨"", "", "", false, id, fun _ => true, fun _ => false, fun v _ => v,
          false, none⟩
        ⟨7, "", "hello", some 0, "c", "u", [], []⟩ "" [] ("hello")) =
      [("id"), ("date"), ("updated"), ("source"), ("blinkoType"),
       ("blinkoTypeCode"), ("blinkoAttachments")] ∧
    fmKeys
      (generateMarkdown
        ⟨"", "", "", true, id, fun _ => true, fun _ => false, fun v _ => v,
          false, none⟩
        ⟨7, "", "hello", some 0, "c", "u", [], []⟩ "" [] ("hello")) =
      [("id"), ("date"), ("updated"), ("source"), ("blinkoType"),
       ("blinkoTypeCode"), ("blinkoAttachments"), ("tags")] ∧
    (∃ fm, generateMarkdown
        ⟨"", "", "", false, id, fun _ => true, fun _ => false, fun v _ => v,
          false, none⟩
        ⟨7, "", "hello", some 0, "c", "u", [], []⟩ "" [] ("hello") =
        fm ++ ensureTrailingNewline (("hello") ++ "") ∧
      strEndsWith fm ("---\n") = true) := by
  have h0 := claimC9Amended
    ⟨"", "", "", false, id, fun _ => true, fun _ => false, fun v _ => v,
      false, none⟩
    ⟨7, "", "hello", some 0, "c", "u", [], []⟩ "" [] ("hello")
    (by decide) (by decide) (by decide) (by decide) (by decide) (by decide)
  have h1 := claimC9Amended
    ⟨"", "", "", true, id, fun _ => true, fun _ => false, fun v _ => v,
      false, none⟩
    ⟨7, "", "hello", some 0, "c", "u", [], []⟩ "" [] ("hello")
    (by decide) (by decide) (by decide) (by decide) (by decide) (by decide)
  exact ⟨h0.1, h1.1, h0.2⟩

end B2O